import Mathlib

/-!
Verification development for the LargeFileBuster native core
(`src/native/src/scanner.cc`, `src/native/src/database.cc`,
`src/native/include/types.h`, `src/native/include/scanner.h`).

The C++ core is shallowly embedded: the SQLite-backed store becomes a
path-keyed list of rows with explicit `Option` for the closed-connection
state, and the recursive scanner becomes a pure state-passing function over
an abstract directory-tree type.  All definitions follow the source; the
`spec*` family of definitions are independent specification-side
formulations used to state refinement theorems.
-/

namespace LFB

/-- Mirror of `lfb::ItemRecord` (types.h).  `parent` is the raw string field
of the C++ struct; the empty string denotes an absent parent, exactly as in
the source (`addon.cc` maps JS `null` to `""`, `database.cc` binds `""` as
SQL NULL). -/
structure ItemRecord where
  path : String
  parent : String
  type : String
  sizeBytes : Int
  fileCount : Int
  folderCount : Int
  lastWriteUtc : String
  scannedUtc : String
  depth : Int
  runId : String
deriving DecidableEq, Repr

/-- Mirror of `lfb::ScanProgress` (types.h), without the unused `message`
field. -/
structure ScanProgress where
  runId : String
  itemsScanned : Nat
  currentPath : String
  state : String
deriving DecidableEq, Repr

/-- Mirror of `lfb::ScanResult` (types.h): the aggregate returned by the
deep scan. -/
structure ScanResult where
  sizeBytes : Int
  fileCount : Int
  folderCount : Int
  latestMs : Int
deriving DecidableEq, Repr

/-! ## Store (database.cc)

A stored row.  The `parent` column is `Option String`: `Database::upsertItems`
binds SQL NULL when the incoming record's parent string is empty
(database.cc:160), so NULL is represented by `none` and a non-empty string by
`some`. -/

structure ItemRow where
  path : String
  parent : Option String
  type : String
  sizeBytes : Int
  fileCount : Int
  folderCount : Int
  lastWriteUtc : String
  scannedUtc : String
  depth : Int
  runId : String
deriving DecidableEq, Repr

/-- The `items` table.  Row order models SQLite's physical row order. -/
abbrev Store := List ItemRow

/-- The database handle: `none` models `db_ == nullptr` (never opened, or
`open()` failed), `some s` an open connection over table contents `s`. -/
abbrev Db := Option Store

/-- INSERT binding of a record into a fresh row (database.cc:159-168):
an empty `parent` string is bound as SQL NULL. -/
def toRow (r : ItemRecord) : ItemRow :=
  { path := r.path
    parent := if r.parent = "" then none else some r.parent
    type := r.type
    sizeBytes := r.sizeBytes
    fileCount := r.fileCount
    folderCount := r.folderCount
    lastWriteUtc := r.lastWriteUtc
    scannedUtc := r.scannedUtc
    depth := r.depth
    runId := r.runId }

/-- The `ON CONFLICT(path) DO UPDATE` clause of the prepared upsert
statement (database.cc:95-104): every column is taken from the excluded
(new) row except `scannedUtc`, which keeps the stored value when the
incoming one is the empty string. -/
def conflictUpdate (old : ItemRow) (r : ItemRecord) : ItemRow :=
  { path := old.path
    parent := if r.parent = "" then none else some r.parent
    type := r.type
    sizeBytes := r.sizeBytes
    fileCount := r.fileCount
    folderCount := r.folderCount
    lastWriteUtc := r.lastWriteUtc
    scannedUtc := if r.scannedUtc = "" then old.scannedUtc else r.scannedUtc
    depth := r.depth
    runId := r.runId }

/-- One execution of the prepared upsert statement: INSERT, or the conflict
update when a row with the same `path` primary key already exists. -/
def upsertRow (s : Store) (r : ItemRecord) : Store :=
  if s.any (fun row => row.path == r.path) then
    s.map (fun row => if row.path = r.path then conflictUpdate row r else row)
  else
    s ++ [toRow r]

/-- `Database::upsertItems` (database.cc:148-177): returns immediately when
the connection is not open or the batch is empty; otherwise runs the batch
in one transaction, skipping (`continue`) every record whose `type` is
neither `"File"` nor `"Folder"`. -/
def upsertItems (db : Db) (items : List ItemRecord) : Db :=
  match db with
  | none => none
  | some s =>
    if items.isEmpty then some s
    else some (items.foldl
      (fun acc item =>
        if item.type ≠ "File" ∧ item.type ≠ "Folder" then acc
        else upsertRow acc item) s)

/-- Reading a row back (database.cc:189-199): a NULL `parent` column comes
back as the empty string. -/
def toRecord (row : ItemRow) : ItemRecord :=
  { path := row.path
    parent := row.parent.getD ""
    type := row.type
    sizeBytes := row.sizeBytes
    fileCount := row.fileCount
    folderCount := row.folderCount
    lastWriteUtc := row.lastWriteUtc
    scannedUtc := row.scannedUtc
    depth := row.depth
    runId := row.runId }

/-- `Database::getItemByPath` (database.cc:179-204): `nullptr` when the
connection is not open or no row matches (`SELECT ... WHERE path = ? LIMIT 1`). -/
def getItemByPath (db : Db) (path : String) : Option ItemRecord :=
  match db with
  | none => none
  | some s => (s.find? (fun row => row.path == path)).map toRecord

/-- Ordered insertion used to model a SQL ORDER BY clause. -/
def insertBy (le : α → α → Bool) (a : α) : List α → List α
  | [] => [a]
  | b :: l => if le a b then a :: b :: l else b :: insertBy le a l

/-- Insertion sort modelling a SQL ORDER BY clause (one of the orders the
engine may yield; ties are left in a deterministic but unspecified order,
matching the spec's acknowledged non-determinism). -/
def sortBy (le : α → α → Bool) (l : List α) : List α := l.foldr (insertBy le) []

/-- The two sort orders accepted by the queries (database.cc:218,260):
`"name_asc"` is `ORDER BY path ASC`, anything else `ORDER BY sizeBytes DESC`. -/
def sortRows (sort : String) (s : List ItemRow) : List ItemRow :=
  if sort = "name_asc" then sortBy (fun a b => a.path ≤ b.path) s
  else sortBy (fun a b => b.sizeBytes ≤ a.sizeBytes) s

/-- `Database::getChildren` (database.cc:206-252): empty when the connection
is not open; otherwise `WHERE parent = ?` (or `parent IS NULL` when the
parent argument is absent), optionally `AND type = 'Folder'`, ordered,
then `LIMIT ? OFFSET ?`. -/
def getChildren (db : Db) (parent : Option String) (limit offset : Nat)
    (sort : String) (includeFiles : Bool) : List ItemRecord :=
  match db with
  | none => []
  | some s =>
    let matched := s.filter (fun row =>
      decide (row.parent = parent) && (includeFiles || decide (row.type = "Folder")))
    (((sortRows sort matched).drop offset).take limit).map toRecord

/-- SQLite's default case folding: only the ASCII letters A-Z are folded
(the `sqlite3UpperToLower` table); all other characters compare as-is. -/
def asciiLower (c : Char) : Char :=
  if 'A' ≤ c ∧ c ≤ 'Z' then Char.ofNat (c.toNat + 32) else c

/-- One-character LIKE comparison: ASCII-case-insensitive equality. -/
def likeCharEq (p c : Char) : Bool := asciiLower p == asciiLower c

/-- The SQLite LIKE operator (default settings, no ESCAPE clause) on
character lists, pattern first: `%` matches any sequence (the pattern rest
must match some suffix), `_` matches exactly one character, and any other
pattern character matches ASCII-case-insensitively. -/
def likeChars : List Char → List Char → Bool
  | [], s => s.isEmpty
  | '%' :: ps, s => s.tails.any (fun t => likeChars ps t)
  | '_' :: ps, s =>
    match s with
    | [] => false
    | _ :: tl => likeChars ps tl
  | p :: ps, s =>
    match s with
    | [] => false
    | c :: tl => likeCharEq p c && likeChars ps tl

/-- `s LIKE pat` on strings. -/
def likeOp (pat s : String) : Bool := likeChars pat.toList s.toList

/-- Plain character-wise prefix containment — the "prefix-contained"
notion in which the spec phrases root inference.  This is the
specification-side reading; the code's query uses the LIKE operator
(`likeOp`), which additionally folds ASCII case and treats `%`/`_` inside
the stored parentless path as wildcards. -/
def likeMatch (pat s : String) : Bool := pat.toList.isPrefixOf s.toList

/-- The root-selection predicate of `Database::getRoots` (database.cc:262-273):
a row qualifies when its `parent` is NULL, or when its declared parent is not
a stored path and no parentless row `r` satisfies
`items.path LIKE r.path || '%'`. -/
def rootPred (s : Store) (row : ItemRow) : Bool :=
  match row.parent with
  | none => true
  | some p =>
    !(s.any (fun r => r.path == p)) &&
    !(s.any (fun r => decide (r.parent = none) && likeOp (r.path ++ "%") row.path))

/-- `Database::getRoots` (database.cc:254-297): empty when the connection is
not open; otherwise the rows satisfying `rootPred`, ordered, `LIMIT ?`. -/
def getRoots (db : Db) (limit : Nat) (sort : String) : List ItemRecord :=
  match db with
  | none => []
  | some s =>
    ((sortRows sort (s.filter (fun row => rootPred s row))).take limit).map toRecord

/-- `Database::getTop` (database.cc:299-330): empty when the connection is
not open; otherwise `WHERE type = ? ORDER BY sizeBytes DESC LIMIT ?`. -/
def getTop (db : Db) (type : String) (limit : Nat) : List ItemRecord :=
  match db with
  | none => []
  | some s =>
    ((sortBy (fun a b => b.sizeBytes ≤ a.sizeBytes)
        (s.filter (fun row => row.type == type))).take limit).map toRecord

/-- `Database::reset` (database.cc:332-339): drop and recreate the table
when the connection is open. -/
def resetDb (db : Db) : Db :=
  match db with
  | none => none
  | some _ => some []

/-! ## Filesystem model and scanner (scanner.cc)

A directory's contents are modelled as a list of entries.  `file` carries
the stat results used by the scanner (`file_size`, `last_write_time` in
epoch milliseconds); `dir` carries the child directory's own entries;
`other` is an entry that is neither a regular file nor a directory
(symlink, socket, ...), which the scanner iterates over but neither counts
nor descends into. -/

inductive Entry where
  | file (path : String) (size : Nat) (mtimeMs : Int)
  | dir (path : String) (entries : List Entry)
  | other (path : String)
deriving Repr

/-- `toIsoString` (scanner.cc:22-34) renders an epoch-milliseconds value as
a UTC timestamp string.  The exact `strftime` text is irrelevant to every
claim under verification; the embedding keeps the function injective on its
input and string-valued. -/
def toIsoString (epochMs : Int) : String := toString epochMs ++ "Z"

/-- `getParent` (scanner.cc:43-51): the `std::filesystem` parent path for
POSIX-style paths, with the empty string for "no parent" (relative
single-component paths and the filesystem root, where `parent_path()`
equals the path itself). -/
def getParent (path : String) : String :=
  let cs := path.toList
  match (cs.reverse.findIdx? (fun c => c = '/')) with
  | none => ""
  | some j =>
    let i := cs.length - 1 - j
    if i = 0 then (if path = "/" then "" else "/")
    else String.mk (cs.take i)

/-- `Scanner::PROGRESS_INTERVAL` (scanner.h:40). -/
def PROGRESS_INTERVAL : Nat := 5000

/-- `Scanner::MIN_FILE_SIZE_FOR_DB` (scanner.h:41): 100 KiB. -/
def MIN_FILE_SIZE_FOR_DB : Nat := 100 * 1024

/-- The mutable scanner state threaded through the deep scan:
the `itemsScanned_` and `lastProgressUpdate_` members (scanner.h:36-37),
the progress events delivered to the callback so far (newest first), and a
tick counter numbering the reads of the shared cancellation flag, so that a
time-varying flag can be modelled as a function of the read index. -/
structure ScanSt where
  itemsScanned : Nat
  lastProgress : Nat
  events : List ScanProgress
  ticks : Nat
deriving DecidableEq, Repr

/-- One cancellation-flag read (`cancelled.load()`): the value at the
current tick, and the state with the tick consumed. -/
def checkFlag (cancelled : Nat → Bool) (st : ScanSt) : Bool × ScanSt :=
  (cancelled st.ticks, { st with ticks := st.ticks + 1 })

/-- The progress-reporting block run after each directory entry
(scanner.cc:231-245): when the counter has advanced by at least
`PROGRESS_INTERVAL` since the last report, the compare-and-swap succeeds
(the recursion is sequential) and a `state="running"` event is emitted.
The C++ comparison `current - lastUpdate >= PROGRESS_INTERVAL` is over
`int`; both counters are non-negative, so it is `lastProgress +
PROGRESS_INTERVAL ≤ itemsScanned`. -/
def progressStep (runId startPath : String) (st : ScanSt) : ScanSt :=
  if st.lastProgress + PROGRESS_INTERVAL ≤ st.itemsScanned then
    { st with
      lastProgress := st.itemsScanned
      events := { runId := runId, itemsScanned := st.itemsScanned,
                  currentPath := startPath, state := "running" } :: st.events }
  else st

/-- Zero-initialised `ScanResult{0, 0, 0, 0}` (scanner.cc:177). -/
def zeroResult : ScanResult := { sizeBytes := 0, fileCount := 0, folderCount := 0, latestMs := 0 }

/-- The entry loop of `Scanner::scanFullAsync` (scanner.cc:186-250), over
the remaining entries `l` of directory `startPath`, with the running
aggregate `acc`, the level-local `batchItems` built so far, and the scanner
state.  Per entry: the cancellation flag is read and on `true` the loop
breaks with the partial aggregate; a regular file is folded into the
aggregate, bumps `itemsScanned_`, and is appended to the batch only when
its size meets `MIN_FILE_SIZE_FOR_DB`; a subdirectory is scanned by the
recursive `scanFullAsync` call — inlined here as its entry flag check
followed by this loop over the child's entries with a fresh zero aggregate
and fresh batch, of which only the aggregate and state survive — and its
aggregate is folded in with `folderCount + 1`; any other entry kind does
nothing; finally the progress block runs. -/
def scanLoop (cancelled : Nat → Bool) (runId : String) (nowMs : Int)
    (startPath : String) (depth : Nat) (l : List Entry)
    (acc : ScanResult) (batch : List ItemRecord) (st : ScanSt) :
    ScanResult × List ItemRecord × ScanSt :=
  match l with
  | [] => (acc, batch, st)
  | e :: rest =>
    let flag := checkFlag cancelled st
    if flag.1 then (acc, batch, flag.2)
    else
      match e with
      | .file p sz mt =>
        let acc1 : ScanResult :=
          { sizeBytes := acc.sizeBytes + (sz : Int)
            fileCount := acc.fileCount + 1
            folderCount := acc.folderCount
            latestMs := max acc.latestMs mt }
        let st1 := { flag.2 with itemsScanned := flag.2.itemsScanned + 1 }
        let batch1 :=
          if MIN_FILE_SIZE_FOR_DB ≤ sz then
            batch ++ [{ path := p, parent := startPath, type := "File",
                        sizeBytes := (sz : Int), fileCount := 1, folderCount := 0,
                        lastWriteUtc := toIsoString mt,
                        scannedUtc := toIsoString nowMs,
                        depth := (depth : Int) + 1, runId := runId }]
          else batch
        scanLoop cancelled runId nowMs startPath depth rest acc1 batch1
          (progressStep runId startPath st1)
      | .dir p sub =>
        let subFlag := checkFlag cancelled flag.2
        let subOut :=
          if subFlag.1 then (zeroResult, subFlag.2)
          else
            let r := scanLoop cancelled runId nowMs p (depth + 1) sub zeroResult [] subFlag.2
            (r.1, r.2.2)
        let acc1 : ScanResult :=
          { sizeBytes := acc.sizeBytes + subOut.1.sizeBytes
            fileCount := acc.fileCount + subOut.1.fileCount
            folderCount := acc.folderCount + subOut.1.folderCount + 1
            latestMs := max acc.latestMs subOut.1.latestMs }
        scanLoop cancelled runId nowMs startPath depth rest acc1 batch
          (progressStep runId startPath subOut.2)
      | .other _ =>
        scanLoop cancelled runId nowMs startPath depth rest acc batch
          (progressStep runId startPath flag.2)
termination_by sizeOf l
decreasing_by
  all_goals simp_wf
  all_goals omega

/-- `Scanner::scanFullAsync` (scanner.cc:169-260) on a readable directory
`startPath` with entries `l`: the cancellation flag is read at entry
(returning the zero aggregate when already signaled), then the entry loop
runs; the level-local `batchItems` list is discarded — the function body
contains no database call (scanner.cc:252 `TODO: Batch persist`), so only
the aggregate and the scanner state are returned. -/
def scanFull (cancelled : Nat → Bool) (runId : String) (nowMs : Int)
    (startPath : String) (depth : Nat) (l : List Entry) (st : ScanSt) :
    ScanResult × ScanSt :=
  let flag := checkFlag cancelled st
  if flag.1 then (zeroResult, flag.2)
  else
    let r := scanLoop cancelled runId nowMs startPath depth l zeroResult [] flag.2
    (r.1, r.2.2)

/-! ### Shallow scan -/

/-- `Scanner::statDirShallow` (scanner.cc:53-77): one level of listing,
summing immediate regular-file sizes and counts, counting immediate
subdirectories, and taking the latest immediate-file modification time. -/
def statDirShallow (entries : List Entry) : ScanResult :=
  entries.foldl
    (fun r e =>
      match e with
      | .file _ sz mt =>
        { sizeBytes := r.sizeBytes + (sz : Int)
          fileCount := r.fileCount + 1
          folderCount := r.folderCount
          latestMs := max r.latestMs mt }
      | .dir _ _ => { r with folderCount := r.folderCount + 1 }
      | .other _ => r)
    zeroResult

/-- The child loop of `Scanner::scanShallow` (scanner.cc:88-136), with the
running totals as accumulators.  File children emit a depth-1 `File` record
and are folded into the totals; directory children are stat'ed one level
deep by `statDirShallow` and emit a depth-1 `Folder` record whose
`lastWriteUtc` falls back to the current time when no immediate file gave a
positive mtime; other entries are skipped. -/
def shallowLoop (startPath runId : String) (nowMs : Int) (l : List Entry)
    (items : List ItemRecord) (totalSize : Int) (totalFiles totalFolders : Int)
    (latest : Int) : List ItemRecord × Int × Int × Int × Int :=
  match l with
  | [] => (items, totalSize, totalFiles, totalFolders, latest)
  | .file p sz mt :: rest =>
    let rec1 : ItemRecord :=
      { path := p, parent := startPath, type := "File",
        sizeBytes := (sz : Int), fileCount := 1, folderCount := 0,
        lastWriteUtc := toIsoString mt, scannedUtc := "",
        depth := 1, runId := runId }
    shallowLoop startPath runId nowMs rest (items ++ [rec1])
      (totalSize + (sz : Int)) (totalFiles + 1) totalFolders (max latest mt)
  | .dir p sub :: rest =>
    let dirStats := statDirShallow sub
    let rec1 : ItemRecord :=
      { path := p, parent := startPath, type := "Folder",
        sizeBytes := dirStats.sizeBytes, fileCount := dirStats.fileCount,
        folderCount := dirStats.folderCount,
        lastWriteUtc := toIsoString (if 0 < dirStats.latestMs then dirStats.latestMs else nowMs),
        scannedUtc := "", depth := 1, runId := runId }
    shallowLoop startPath runId nowMs rest (items ++ [rec1])
      (totalSize + dirStats.sizeBytes) totalFiles (totalFolders + 1)
      (max latest dirStats.latestMs)
  | .other _ :: rest =>
    shallowLoop startPath runId nowMs rest items totalSize totalFiles totalFolders latest

/-- `Scanner::scanShallow` (scanner.cc:79-167) on a readable directory
`startPath` with entries `l` and own modification time `rootMtime`: the
child loop, then exactly one `Folder` record for `startPath` itself at
depth 0, whose totals are the loop's accumulators, whose latest-mtime folds
in `rootMtime`, and whose parent is `getParent startPath`.  `scannedUtc` is
left empty on every record. -/
def scanShallow (startPath runId : String) (rootMtime nowMs : Int)
    (l : List Entry) : List ItemRecord :=
  let out := shallowLoop startPath runId nowMs l [] 0 0 0 0
  let latest := max out.2.2.2.2 rootMtime
  let rootRec : ItemRecord :=
    { path := startPath, parent := getParent startPath, type := "Folder",
      sizeBytes := out.2.1, fileCount := out.2.2.1, folderCount := out.2.2.2.1,
      lastWriteUtc := toIsoString (if 0 < latest then latest else nowMs),
      scannedUtc := "", depth := 0, runId := runId }
  out.1 ++ [rootRec]

/-! ## Specification-side tree statistics

Independent, flatten-based formulations of the subtree statistics the deep
scan is claimed to compute; the refinement theorems equate the scanner with
these. -/

/-- `(size, mtime)` of every regular file anywhere in the forest, in
traversal order. -/
def subtreeFiles : List Entry → List (Nat × Int)
  | [] => []
  | .file _ sz mt :: rest => (sz, mt) :: subtreeFiles rest
  | .dir _ sub :: rest => subtreeFiles sub ++ subtreeFiles rest
  | .other _ :: rest => subtreeFiles rest
termination_by l => sizeOf l
decreasing_by
  all_goals simp_wf
  all_goals omega

/-- Path of every directory anywhere in the forest. -/
def allDirPaths : List Entry → List String
  | [] => []
  | .file _ _ _ :: rest => allDirPaths rest
  | .dir p sub :: rest => p :: (allDirPaths sub ++ allDirPaths rest)
  | .other _ :: rest => allDirPaths rest
termination_by l => sizeOf l
decreasing_by
  all_goals simp_wf
  all_goals omega

/-- Total size of all regular files in the forest. -/
def specSize (l : List Entry) : Int := ((subtreeFiles l).map (fun x => (x.1 : Int))).sum

/-- Number of regular files in the forest. -/
def specFileCount (l : List Entry) : Int := (subtreeFiles l).length

/-- Number of directories in the forest. -/
def specDirCount (l : List Entry) : Int := (allDirPaths l).length

/-- Latest modification time over all regular files in the forest, at
least the scanner's initial value 0. -/
def specLatest (l : List Entry) : Int := ((subtreeFiles l).map (fun x => x.2)).foldr max 0

/-- The subtree statistics bundled as a `ScanResult`. -/
def specAgg (l : List Entry) : ScanResult :=
  { sizeBytes := specSize l, fileCount := specFileCount l,
    folderCount := specDirCount l, latestMs := specLatest l }

/-- Pointwise combination of aggregates: sums of sizes and counts, max of
modification times. -/
def addAgg (a b : ScanResult) : ScanResult :=
  { sizeBytes := a.sizeBytes + b.sizeBytes
    fileCount := a.fileCount + b.fileCount
    folderCount := a.folderCount + b.folderCount
    latestMs := max a.latestMs b.latestMs }

/-- Componentwise order on aggregates. -/
def aggLE (a b : ScanResult) : Prop :=
  a.sizeBytes ≤ b.sizeBytes ∧ a.fileCount ≤ b.fileCount ∧
  a.folderCount ≤ b.folderCount ∧ a.latestMs ≤ b.latestMs

/-- Number of directory entries an uncancelled traversal of the forest
iterates over (every entry of every directory, of any kind). -/
def entriesObserved : List Entry → Nat
  | [] => 0
  | .dir _ sub :: rest => 1 + entriesObserved sub + entriesObserved rest
  | _ :: rest => 1 + entriesObserved rest
termination_by l => sizeOf l
decreasing_by
  all_goals simp_wf
  all_goals omega

/-- Invariant tying progress events to the progress counters: event counts
descend (newest first) with gaps of at least `PROGRESS_INTERVAL`, every
recorded event count is at most `lastProgressUpdate_`, and
`lastProgressUpdate_` is at most `itemsScanned_`. -/
def EventsInv (st : ScanSt) : Prop :=
  List.Chain' (fun a b => b.itemsScanned + PROGRESS_INTERVAL ≤ a.itemsScanned) st.events ∧
  (∀ e ∈ st.events, e.itemsScanned ≤ st.lastProgress) ∧
  st.lastProgress ≤ st.itemsScanned

/-- The claim's root characterization, phrased from its words: a stored
node is a root when it is explicitly parentless, or when its declared
parent path is not present as a path in the store and its path is not
prefix-contained within the path of some other parentless node.  The
claim's "prefix-contained" is plain prefix containment (`likeMatch`);
the code's query tests LIKE instead, and the two disagree (see the C3
counterexample). -/
def specIsRoot (s : Store) (row : ItemRow) : Prop :=
  row.parent = none ∨
  ((∀ r ∈ s, row.parent ≠ some r.path) ∧
   ∀ r ∈ s, r.parent = none → ¬ (likeMatch r.path row.path = true))

/-- The amended root characterization: as `specIsRoot`, but with
containment read as the query's actual test — the node's path matches
the other parentless node's path followed by `%` under SQLite LIKE
semantics (ASCII-case-insensitive, `%`/`_` in the stored path acting as
wildcards). -/
def specIsRootLike (s : Store) (row : ItemRow) : Prop :=
  row.parent = none ∨
  ((∀ r ∈ s, row.parent ≠ some r.path) ∧
   ∀ r ∈ s, r.parent = none → ¬ (likeOp (r.path ++ "%") row.path = true))

/-- An entry that is a regular file. -/
def entryIsFile : Entry → Bool
  | .file _ _ _ => true
  | _ => false

/-- An entry that is a directory. -/
def entryIsDir : Entry → Bool
  | .dir _ _ => true
  | _ => false

/-- Number of immediate regular-file entries of a directory. -/
def countFilesTop (l : List Entry) : Int := ((l.filter entryIsFile).length : Int)

/-- Number of immediate subdirectory entries of a directory. -/
def countDirsTop (l : List Entry) : Int := ((l.filter entryIsDir).length : Int)

end LFB

namespace LFB

theorem one_le_sizeOf_entry (e : Entry) : 1 ≤ sizeOf e := by
  cases e <;> simp_arith

theorem zero_le_foldr_max (l : List Int) : (0:Int) ≤ l.foldr max 0 := by
  induction l with
  | nil => simp
  | cons x xs ih => exact le_trans ih (le_max_right x _)

theorem foldr_max_init (a : List Int) (e : Int) (h : 0 ≤ e) :
    a.foldr max e = max (a.foldr max 0) e := by
  induction a with
  | nil => simp [max_eq_right h]
  | cons x xs ih => simp only [List.foldr_cons, ih, max_assoc]

theorem scanLoop_nil (c : Nat → Bool) (rid : String) (now : Int) (sp : String) (d : Nat)
    (acc : ScanResult) (batch : List ItemRecord) (st : ScanSt) :
    scanLoop c rid now sp d [] acc batch st = (acc, batch, st) := by
  rw [scanLoop.eq_def]

theorem scanLoop_cons_cancel (c : Nat → Bool) (rid : String) (now : Int) (sp : String)
    (d : Nat) (e : Entry) (rest : List Entry) (acc : ScanResult) (batch : List ItemRecord)
    (st : ScanSt) (h : c st.ticks = true) :
    scanLoop c rid now sp d (e :: rest) acc batch st
      = (acc, batch, { st with ticks := st.ticks + 1 }) := by
  rw [scanLoop.eq_def]; simp [checkFlag, h]

theorem scanLoop_cons_file (c : Nat → Bool) (rid : String) (now : Int) (sp : String)
    (d : Nat) (p : String) (sz : Nat) (mt : Int) (rest : List Entry) (acc : ScanResult)
    (batch : List ItemRecord) (st : ScanSt) (h : c st.ticks = false) :
    scanLoop c rid now sp d (.file p sz mt :: rest) acc batch st
      = scanLoop c rid now sp d rest
          { sizeBytes := acc.sizeBytes + (sz : Int), fileCount := acc.fileCount + 1,
            folderCount := acc.folderCount, latestMs := max acc.latestMs mt }
          (if MIN_FILE_SIZE_FOR_DB ≤ sz then
              batch ++ [{ path := p, parent := sp, type := "File",
                          sizeBytes := (sz : Int), fileCount := 1, folderCount := 0,
                          lastWriteUtc := toIsoString mt, scannedUtc := toIsoString now,
                          depth := (d : Int) + 1, runId := rid }]
            else batch)
          (progressStep rid sp
            { itemsScanned := st.itemsScanned + 1, lastProgress := st.lastProgress,
              events := st.events, ticks := st.ticks + 1 }) := by
  rw [scanLoop.eq_def]; simp [checkFlag, h]

theorem scanLoop_cons_dir (c : Nat → Bool) (rid : String) (now : Int) (sp : String)
    (d : Nat) (p : String) (sub rest : List Entry) (acc : ScanResult)
    (batch : List ItemRecord) (st : ScanSt) (h : c st.ticks = false) :
    scanLoop c rid now sp d (.dir p sub :: rest) acc batch st
      = (let s := scanFull c rid now p (d + 1) sub { st with ticks := st.ticks + 1 }
         scanLoop c rid now sp d rest
           { sizeBytes := acc.sizeBytes + s.1.sizeBytes,
             fileCount := acc.fileCount + s.1.fileCount,
             folderCount := acc.folderCount + s.1.folderCount + 1,
             latestMs := max acc.latestMs s.1.latestMs }
           batch (progressStep rid sp s.2)) := by
  rw [scanLoop.eq_def]; unfold scanFull; simp [checkFlag, h]

theorem scanLoop_cons_other (c : Nat → Bool) (rid : String) (now : Int) (sp : String)
    (d : Nat) (p : String) (rest : List Entry) (acc : ScanResult)
    (batch : List ItemRecord) (st : ScanSt) (h : c st.ticks = false) :
    scanLoop c rid now sp d (.other p :: rest) acc batch st
      = scanLoop c rid now sp d rest acc batch
          (progressStep rid sp { st with ticks := st.ticks + 1 }) := by
  rw [scanLoop.eq_def]; simp [checkFlag, h]

theorem scanFull_cancel (c : Nat → Bool) (rid : String) (now : Int) (sp : String)
    (d : Nat) (l : List Entry) (st : ScanSt) (h : c st.ticks = true) :
    scanFull c rid now sp d l st = (zeroResult, { st with ticks := st.ticks + 1 }) := by
  unfold scanFull; simp [checkFlag, h]

theorem scanFull_go (c : Nat → Bool) (rid : String) (now : Int) (sp : String)
    (d : Nat) (l : List Entry) (st : ScanSt) (h : c st.ticks = false) :
    scanFull c rid now sp d l st
      = (let r := scanLoop c rid now sp d l zeroResult [] { st with ticks := st.ticks + 1 }
         (r.1, r.2.2)) := by
  unfold scanFull; simp [checkFlag, h]

theorem scanLoop_cons_dir_eq (c : Nat → Bool) (rid : String) (now : Int) (sp : String)
    (d : Nat) (p : String) (sub rest : List Entry) (acc : ScanResult)
    (batch : List ItemRecord) (st : ScanSt) (h : c st.ticks = false)
    (sres : ScanResult) (sst : ScanSt)
    (hs : scanFull c rid now p (d + 1) sub { st with ticks := st.ticks + 1 } = (sres, sst)) :
    scanLoop c rid now sp d (.dir p sub :: rest) acc batch st
      = scanLoop c rid now sp d rest
          { sizeBytes := acc.sizeBytes + sres.sizeBytes,
            fileCount := acc.fileCount + sres.fileCount,
            folderCount := acc.folderCount + sres.folderCount + 1,
            latestMs := max acc.latestMs sres.latestMs }
          batch (progressStep rid sp sst) := by
  rw [scanLoop_cons_dir c rid now sp d p sub rest acc batch st h]
  simp only [hs]

theorem scanFull_go_eq (c : Nat → Bool) (rid : String) (now : Int) (sp : String)
    (d : Nat) (l : List Entry) (st : ScanSt) (h : c st.ticks = false)
    (r : ScanResult × List ItemRecord × ScanSt)
    (hr : scanLoop c rid now sp d l zeroResult [] { st with ticks := st.ticks + 1 } = r) :
    scanFull c rid now sp d l st = (r.1, r.2.2) := by
  rw [scanFull_go c rid now sp d l st h]
  simp only [hr]

theorem specSize_file_cons (p : String) (sz : Nat) (mt : Int) (rest : List Entry) :
    specSize (.file p sz mt :: rest) = (sz : Int) + specSize rest := by
  simp [specSize, subtreeFiles]

theorem specFileCount_file_cons (p : String) (sz : Nat) (mt : Int) (rest : List Entry) :
    specFileCount (.file p sz mt :: rest) = 1 + specFileCount rest := by
  simp [specFileCount, subtreeFiles]; omega

theorem specDirCount_file_cons (p : String) (sz : Nat) (mt : Int) (rest : List Entry) :
    specDirCount (.file p sz mt :: rest) = specDirCount rest := by
  simp [specDirCount, allDirPaths]

theorem specLatest_file_cons (p : String) (sz : Nat) (mt : Int) (rest : List Entry) :
    specLatest (.file p sz mt :: rest) = max mt (specLatest rest) := by
  simp [specLatest, subtreeFiles]

theorem specSize_dir_cons (p : String) (sub rest : List Entry) :
    specSize (.dir p sub :: rest) = specSize sub + specSize rest := by
  simp [specSize, subtreeFiles]

theorem specFileCount_dir_cons (p : String) (sub rest : List Entry) :
    specFileCount (.dir p sub :: rest) = specFileCount sub + specFileCount rest := by
  simp [specFileCount, subtreeFiles]

theorem specDirCount_dir_cons (p : String) (sub rest : List Entry) :
    specDirCount (.dir p sub :: rest) = 1 + specDirCount sub + specDirCount rest := by
  simp [specDirCount, allDirPaths]; omega

theorem specLatest_dir_cons (p : String) (sub rest : List Entry) :
    specLatest (.dir p sub :: rest) = max (specLatest sub) (specLatest rest) := by
  simp only [specLatest, subtreeFiles, List.map_append, List.foldr_append]
  exact foldr_max_init _ _ (zero_le_foldr_max _)

theorem specSize_other_cons (p : String) (rest : List Entry) :
    specSize (.other p :: rest) = specSize rest := by
  simp [specSize, subtreeFiles]

theorem specFileCount_other_cons (p : String) (rest : List Entry) :
    specFileCount (.other p :: rest) = specFileCount rest := by
  simp [specFileCount, subtreeFiles]

theorem specDirCount_other_cons (p : String) (rest : List Entry) :
    specDirCount (.other p :: rest) = specDirCount rest := by
  simp [specDirCount, allDirPaths]

theorem specLatest_other_cons (p : String) (rest : List Entry) :
    specLatest (.other p :: rest) = specLatest rest := by
  simp [specLatest, subtreeFiles]

theorem zero_le_specLatest (l : List Entry) : 0 ≤ specLatest l :=
  zero_le_foldr_max _

theorem progressStep_itemsScanned (rid sp : String) (st : ScanSt) :
    (progressStep rid sp st).itemsScanned = st.itemsScanned := by
  unfold progressStep; split <;> rfl

theorem addAgg_zero_left (x : ScanResult) (h : 0 ≤ x.latestMs) :
    addAgg zeroResult x = x := by
  obtain ⟨a, b, c, d⟩ := x
  simp only [addAgg, zeroResult, zero_add]
  simp at h
  simp [max_eq_right h]

theorem addAgg_spec_nil (acc : ScanResult) (h : 0 ≤ acc.latestMs) :
    addAgg acc (specAgg []) = acc := by
  obtain ⟨a, b, c, d⟩ := acc
  simp only [addAgg, specAgg, specSize, specFileCount, specDirCount, specLatest,
    subtreeFiles, allDirPaths]
  simp at h
  simp [max_eq_left h]

theorem addAgg_spec_file (acc : ScanResult) (p : String) (sz : Nat) (mt : Int)
    (rest : List Entry) :
    addAgg { sizeBytes := acc.sizeBytes + (sz : Int), fileCount := acc.fileCount + 1,
             folderCount := acc.folderCount, latestMs := max acc.latestMs mt }
        (specAgg rest)
      = addAgg acc (specAgg (.file p sz mt :: rest)) := by
  unfold addAgg specAgg
  rw [specSize_file_cons, specFileCount_file_cons, specDirCount_file_cons,
    specLatest_file_cons, ScanResult.mk.injEq]
  exact ⟨by ring, by ring, rfl, max_assoc _ _ _⟩

theorem addAgg_spec_dir (acc : ScanResult) (p : String) (sub rest : List Entry) :
    addAgg { sizeBytes := acc.sizeBytes + (specAgg sub).sizeBytes,
             fileCount := acc.fileCount + (specAgg sub).fileCount,
             folderCount := acc.folderCount + (specAgg sub).folderCount + 1,
             latestMs := max acc.latestMs (specAgg sub).latestMs }
        (specAgg rest)
      = addAgg acc (specAgg (.dir p sub :: rest)) := by
  unfold addAgg specAgg
  rw [specSize_dir_cons, specFileCount_dir_cons, specDirCount_dir_cons,
    specLatest_dir_cons, ScanResult.mk.injEq]
  exact ⟨by ring, by ring, by ring, max_assoc _ _ _⟩

theorem addAgg_spec_other (acc : ScanResult) (p : String) (rest : List Entry) :
    addAgg acc (specAgg rest) = addAgg acc (specAgg (.other p :: rest)) := by
  unfold addAgg specAgg
  rw [specSize_other_cons, specFileCount_other_cons, specDirCount_other_cons,
    specLatest_other_cons]

/-- No-cancellation characterization of the entry loop: the aggregate is the
accumulator combined with the subtree statistics, and `itemsScanned`
advances by exactly the number of regular files in the forest. -/
theorem scanLoop_nc (n : Nat) : ∀ l : List Entry, sizeOf l ≤ n →
    ∀ (rid : String) (now : Int) (sp : String) (d : Nat) (acc : ScanResult)
      (batch : List ItemRecord) (st : ScanSt), 0 ≤ acc.latestMs →
    (scanLoop (fun _ => false) rid now sp d l acc batch st).1 = addAgg acc (specAgg l) ∧
    ((scanLoop (fun _ => false) rid now sp d l acc batch st).2.2).itemsScanned
        = st.itemsScanned + (subtreeFiles l).length := by
  induction n with
  | zero =>
    intro l hl
    cases l <;> simp_arith at hl
  | succ n ih =>
    intro l hl rid now sp d acc batch st hacc
    match l with
    | [] =>
      rw [scanLoop_nil]
      exact ⟨(addAgg_spec_nil acc hacc).symm, by simp [subtreeFiles]⟩
    | .file p sz mt :: rest =>
      have hrest : sizeOf rest ≤ n := by
        have := one_le_sizeOf_entry (Entry.file p sz mt)
        simp_arith at hl; omega
      rw [scanLoop_cons_file _ _ _ _ _ _ _ _ _ _ _ _ rfl]
      have key := ih rest hrest rid now sp d
        { sizeBytes := acc.sizeBytes + (sz : Int), fileCount := acc.fileCount + 1,
          folderCount := acc.folderCount, latestMs := max acc.latestMs mt }
        (if MIN_FILE_SIZE_FOR_DB ≤ sz then
            batch ++ [{ path := p, parent := sp, type := "File",
                        sizeBytes := (sz : Int), fileCount := 1, folderCount := 0,
                        lastWriteUtc := toIsoString mt, scannedUtc := toIsoString now,
                        depth := (d : Int) + 1, runId := rid }]
          else batch)
        (progressStep rid sp
          { itemsScanned := st.itemsScanned + 1, lastProgress := st.lastProgress,
            events := st.events, ticks := st.ticks + 1 })
        (le_trans hacc (le_max_left _ _))
      refine ⟨?_, ?_⟩
      · rw [key.1, addAgg_spec_file]
      · rw [key.2, progressStep_itemsScanned]
        simp [subtreeFiles]
        omega
    | .dir p sub :: rest =>
      have hsub : sizeOf sub ≤ n := by simp_arith at hl; omega
      have hrest : sizeOf rest ≤ n := by
        have := one_le_sizeOf_entry (Entry.dir p sub)
        simp_arith at hl; omega
      have hscan : ∀ st1 : ScanSt,
          (scanFull (fun _ => false) rid now p (d + 1) sub st1).1 = specAgg sub ∧
          ((scanFull (fun _ => false) rid now p (d + 1) sub st1).2).itemsScanned
            = st1.itemsScanned + (subtreeFiles sub).length := by
        intro st1
        have key := ih sub hsub rid now p (d + 1) zeroResult []
          { st1 with ticks := st1.ticks + 1 } (by simp [zeroResult])
        rw [scanFull_go (fun _ => false) rid now p (d + 1) sub st1 rfl]
        refine ⟨?_, ?_⟩
        · show (scanLoop (fun _ => false) rid now p (d + 1) sub zeroResult []
              { st1 with ticks := st1.ticks + 1 }).1 = specAgg sub
          rw [key.1, addAgg_zero_left _ (zero_le_specLatest sub)]
        · show ((scanLoop (fun _ => false) rid now p (d + 1) sub zeroResult []
              { st1 with ticks := st1.ticks + 1 }).2.2).itemsScanned
            = st1.itemsScanned + (subtreeFiles sub).length
          rw [key.2]
      rw [scanLoop_cons_dir_eq (fun _ => false) rid now sp d p sub rest acc batch st rfl
        (scanFull (fun _ => false) rid now p (d + 1) sub { st with ticks := st.ticks + 1 }).1
        (scanFull (fun _ => false) rid now p (d + 1) sub { st with ticks := st.ticks + 1 }).2
        rfl]
      rw [(hscan { st with ticks := st.ticks + 1 }).1]
      have key := ih rest hrest rid now sp d
        { sizeBytes := acc.sizeBytes + (specAgg sub).sizeBytes,
          fileCount := acc.fileCount + (specAgg sub).fileCount,
          folderCount := acc.folderCount + (specAgg sub).folderCount + 1,
          latestMs := max acc.latestMs (specAgg sub).latestMs }
        batch
        (progressStep rid sp
          (scanFull (fun _ => false) rid now p (d + 1) sub { st with ticks := st.ticks + 1 }).2)
        (le_trans hacc (le_max_left _ _))
      refine ⟨?_, ?_⟩
      · rw [key.1, addAgg_spec_dir]
      · rw [key.2, progressStep_itemsScanned,
          (hscan { st with ticks := st.ticks + 1 }).2]
        simp [subtreeFiles]
        omega
    | .other p :: rest =>
      have hrest : sizeOf rest ≤ n := by
        have := one_le_sizeOf_entry (Entry.other p)
        simp_arith at hl; omega
      rw [scanLoop_cons_other _ _ _ _ _ _ _ _ _ _ rfl]
      have key := ih rest hrest rid now sp d acc batch
        (progressStep rid sp { st with ticks := st.ticks + 1 }) hacc
      exact ⟨by rw [key.1, addAgg_spec_other],
             by rw [key.2, progressStep_itemsScanned]; simp [subtreeFiles]⟩

theorem zero_le_specSize (l : List Entry) : 0 ≤ specSize l := by
  unfold specSize
  apply List.sum_nonneg
  intro x hx
  simp at hx
  obtain ⟨a, b, hab, hx⟩ := hx
  omega

theorem zero_le_specFileCount (l : List Entry) : 0 ≤ specFileCount l := by
  unfold specFileCount; positivity

theorem zero_le_specDirCount (l : List Entry) : 0 ≤ specDirCount l := by
  unfold specDirCount; positivity

theorem aggLE_acc_add (acc : ScanResult) (l : List Entry) :
    aggLE acc (addAgg acc (specAgg l)) := by
  refine ⟨?_, ?_, ?_, le_max_left _ _⟩
  · have := zero_le_specSize l
    simp only [addAgg, specAgg]; omega
  · have := zero_le_specFileCount l
    simp only [addAgg, specAgg]; omega
  · have := zero_le_specDirCount l
    simp only [addAgg, specAgg]; omega

theorem aggLE_zero_spec (l : List Entry) : aggLE zeroResult (specAgg l) :=
  ⟨zero_le_specSize l, zero_le_specFileCount l, zero_le_specDirCount l,
   zero_le_specLatest l⟩

theorem aggLE_trans {a b c : ScanResult} (h1 : aggLE a b) (h2 : aggLE b c) : aggLE a c :=
  ⟨le_trans h1.1 h2.1, le_trans h1.2.1 h2.2.1, le_trans h1.2.2.1 h2.2.2.1,
   le_trans h1.2.2.2 h2.2.2.2⟩

theorem addAgg_mono_left {a b : ScanResult} (x : ScanResult) (h : aggLE a b) :
    aggLE (addAgg a x) (addAgg b x) :=
  ⟨by have := h.1; simp only [addAgg]; omega,
   by have := h.2.1; simp only [addAgg]; omega,
   by have := h.2.2.1; simp only [addAgg]; omega,
   by exact max_le_max h.2.2.2 (le_refl _)⟩

/-- Fold of a child aggregate into the running one (scanner.cc:225-228)
is monotone in the child aggregate. -/
theorem aggLE_fold_dir {s1 : ScanResult} (acc : ScanResult) (sub : List Entry)
    (h : aggLE s1 (specAgg sub)) :
    aggLE { sizeBytes := acc.sizeBytes + s1.sizeBytes,
            fileCount := acc.fileCount + s1.fileCount,
            folderCount := acc.folderCount + s1.folderCount + 1,
            latestMs := max acc.latestMs s1.latestMs }
          { sizeBytes := acc.sizeBytes + (specAgg sub).sizeBytes,
            fileCount := acc.fileCount + (specAgg sub).fileCount,
            folderCount := acc.folderCount + (specAgg sub).folderCount + 1,
            latestMs := max acc.latestMs (specAgg sub).latestMs } :=
  ⟨by have := h.1; simp only []; omega,
   by have := h.2.1; simp only []; omega,
   by have := h.2.2.1; simp only []; omega,
   by exact max_le_max (le_refl _) h.2.2.2⟩


theorem progressStep_shape (rid sp : String) (st : ScanSt) :
    ∃ new, (progressStep rid sp st).events = new ++ st.events ∧
      ∀ e ∈ new, e.state = "running" ∧ e.runId = rid := by
  unfold progressStep
  split
  · exact ⟨[{ runId := rid, itemsScanned := st.itemsScanned,
              currentPath := sp, state := "running" }], rfl,
      by intro e he; simp at he; simp [he]⟩
  · exact ⟨[], rfl, by intro e he; simp at he⟩

theorem progressStep_lastProgress_le (rid sp : String) (st : ScanSt)
    (h : st.lastProgress ≤ st.itemsScanned) :
    (progressStep rid sp st).lastProgress ≤ (progressStep rid sp st).itemsScanned := by
  unfold progressStep
  split <;> simp [h]

theorem progressStep_inv (rid sp : String) (st : ScanSt) (h : EventsInv st) :
    EventsInv (progressStep rid sp st) := by
  obtain ⟨hchain, hle, hlp⟩ := h
  unfold progressStep
  split
  case isTrue hcond =>
    have h1 : List.Chain' (fun a b => b.itemsScanned + PROGRESS_INTERVAL ≤ a.itemsScanned)
        ({ runId := rid, itemsScanned := st.itemsScanned,
           currentPath := sp, state := "running" } :: st.events) := by
      refine List.chain'_cons'.2 ⟨?_, hchain⟩
      intro b hb
      have hb' := hle b (List.mem_of_mem_head? hb)
      show b.itemsScanned + PROGRESS_INTERVAL ≤ st.itemsScanned
      omega
    have h2 : ∀ e ∈ ScanProgress.mk rid st.itemsScanned sp "running" :: st.events,
        e.itemsScanned ≤ st.itemsScanned := by
      intro e he
      rcases List.mem_cons.1 he with he | he
      · rw [he]
      · exact le_trans (hle e he) hlp
    exact ⟨h1, h2, le_refl _⟩
  case isFalse => exact ⟨hchain, hle, hlp⟩

theorem itemsBump_inv (st : ScanSt) (h : EventsInv st) :
    EventsInv { st with itemsScanned := st.itemsScanned + 1 } := by
  obtain ⟨hchain, hle, hlp⟩ := h
  exact ⟨hchain, hle, by simp; omega⟩

theorem ticks_inv (st : ScanSt) (t : Nat) (h : EventsInv st) :
    EventsInv { st with ticks := t } := h

/-- Master lemma over an arbitrary cancellation flag: the loop's aggregate
is bounded by the accumulator plus the full subtree statistics, the file
counter only grows, every event added to the log has `state="running"` and
the run's id, and the progress-event invariant is preserved. -/
theorem scanLoop_any (n : Nat) : ∀ l : List Entry, sizeOf l ≤ n →
    ∀ (c : Nat → Bool) (rid : String) (now : Int) (sp : String) (d : Nat)
      (acc : ScanResult) (batch : List ItemRecord) (st : ScanSt),
    aggLE (scanLoop c rid now sp d l acc batch st).1 (addAgg acc (specAgg l)) ∧
    st.itemsScanned ≤ ((scanLoop c rid now sp d l acc batch st).2.2).itemsScanned ∧
    (∃ new, ((scanLoop c rid now sp d l acc batch st).2.2).events = new ++ st.events ∧
      ∀ e ∈ new, e.state = "running" ∧ e.runId = rid) ∧
    (EventsInv st → EventsInv ((scanLoop c rid now sp d l acc batch st).2.2)) := by
  induction n with
  | zero =>
    intro l hl
    cases l <;> simp_arith at hl
  | succ n ih =>
    intro l hl c rid now sp d acc batch st
    match l with
    | [] =>
      rw [scanLoop_nil]
      exact ⟨aggLE_acc_add acc [], le_refl _, ⟨[], rfl, by intro e he; simp at he⟩, id⟩
    | e :: rest =>
      cases hc : c st.ticks with
      | true =>
        rw [scanLoop_cons_cancel _ _ _ _ _ _ _ _ _ _ hc]
        exact ⟨aggLE_acc_add acc (e :: rest), le_refl _,
          ⟨[], rfl, by intro e he; simp at he⟩, ticks_inv st _⟩
      | false =>
        match e with
        | .file p sz mt =>
          have hrest : sizeOf rest ≤ n := by
            have := one_le_sizeOf_entry (Entry.file p sz mt)
            simp_arith at hl; omega
          rw [scanLoop_cons_file _ _ _ _ _ _ _ _ _ _ _ _ hc]
          have key := ih rest hrest c rid now sp d
            { sizeBytes := acc.sizeBytes + (sz : Int), fileCount := acc.fileCount + 1,
              folderCount := acc.folderCount, latestMs := max acc.latestMs mt }
            (if MIN_FILE_SIZE_FOR_DB ≤ sz then
                batch ++ [{ path := p, parent := sp, type := "File",
                            sizeBytes := (sz : Int), fileCount := 1, folderCount := 0,
                            lastWriteUtc := toIsoString mt, scannedUtc := toIsoString now,
                            depth := (d : Int) + 1, runId := rid }]
              else batch)
            (progressStep rid sp
              { itemsScanned := st.itemsScanned + 1, lastProgress := st.lastProgress,
                events := st.events, ticks := st.ticks + 1 })
          refine ⟨?_, ?_, ?_, ?_⟩
          · exact addAgg_spec_file acc p sz mt rest ▸ key.1
          · refine le_trans ?_ key.2.1
            rw [progressStep_itemsScanned]
            exact Nat.le_succ _
          · obtain ⟨new1, hnew1, hsh1⟩ := progressStep_shape rid sp
              { itemsScanned := st.itemsScanned + 1, lastProgress := st.lastProgress,
                events := st.events, ticks := st.ticks + 1 }
            obtain ⟨new2, hnew2, hsh2⟩ := key.2.2.1
            refine ⟨new2 ++ new1, ?_, ?_⟩
            · rw [hnew2, hnew1, List.append_assoc]
            · intro x hx
              rcases List.mem_append.1 hx with hx | hx
              · exact hsh2 x hx
              · exact hsh1 x hx
          · intro hinv
            refine key.2.2.2 (progressStep_inv _ _ _ ?_)
            exact itemsBump_inv st hinv
        | .dir p sub =>
          have hsub : sizeOf sub ≤ n := by simp_arith at hl; omega
          have hrest : sizeOf rest ≤ n := by
            have := one_le_sizeOf_entry (Entry.dir p sub)
            simp_arith at hl; omega
          have hsubany : ∀ st1 : ScanSt,
              aggLE (scanFull c rid now p (d + 1) sub st1).1 (specAgg sub) ∧
              st1.itemsScanned ≤ ((scanFull c rid now p (d + 1) sub st1).2).itemsScanned ∧
              (∃ new, ((scanFull c rid now p (d + 1) sub st1).2).events = new ++ st1.events ∧
                ∀ e ∈ new, e.state = "running" ∧ e.runId = rid) ∧
              (EventsInv st1 → EventsInv ((scanFull c rid now p (d + 1) sub st1).2)) := by
            intro st1
            cases hc1 : c st1.ticks with
            | true =>
              rw [scanFull_cancel _ _ _ _ _ _ _ hc1]
              exact ⟨aggLE_zero_spec sub, le_refl _,
                ⟨[], rfl, by intro e he; simp at he⟩, ticks_inv st1 _⟩
            | false =>
              rw [scanFull_go _ _ _ _ _ _ _ hc1]
              have key := ih sub hsub c rid now p (d + 1) zeroResult []
                { st1 with ticks := st1.ticks + 1 }
              refine ⟨?_, ?_, ?_, ?_⟩
              · show aggLE (scanLoop c rid now p (d + 1) sub zeroResult []
                    { st1 with ticks := st1.ticks + 1 }).1 (specAgg sub)
                have := key.1
                rwa [addAgg_zero_left _ (zero_le_specLatest sub)] at this
              · exact key.2.1
              · exact key.2.2.1
              · exact key.2.2.2
          rw [scanLoop_cons_dir_eq c rid now sp d p sub rest acc batch st hc
            (scanFull c rid now p (d + 1) sub { st with ticks := st.ticks + 1 }).1
            (scanFull c rid now p (d + 1) sub { st with ticks := st.ticks + 1 }).2
            rfl]
          have hs := hsubany { st with ticks := st.ticks + 1 }
          have key := ih rest hrest c rid now sp d
            { sizeBytes := acc.sizeBytes
                + (scanFull c rid now p (d + 1) sub { st with ticks := st.ticks + 1 }).1.sizeBytes,
              fileCount := acc.fileCount
                + (scanFull c rid now p (d + 1) sub { st with ticks := st.ticks + 1 }).1.fileCount,
              folderCount := acc.folderCount
                + (scanFull c rid now p (d + 1) sub { st with ticks := st.ticks + 1 }).1.folderCount + 1,
              latestMs := max acc.latestMs
                (scanFull c rid now p (d + 1) sub { st with ticks := st.ticks + 1 }).1.latestMs }
            batch
            (progressStep rid sp
              (scanFull c rid now p (d + 1) sub { st with ticks := st.ticks + 1 }).2)
          refine ⟨?_, ?_, ?_, ?_⟩
          · refine aggLE_trans key.1 ?_
            refine aggLE_trans (addAgg_mono_left _ (aggLE_fold_dir acc sub hs.1)) ?_
            rw [addAgg_spec_dir]
            exact ⟨le_refl _, le_refl _, le_refl _, le_refl _⟩
          · refine le_trans ?_ key.2.1
            rw [progressStep_itemsScanned]
            exact hs.2.1
          · obtain ⟨newS, hnewS, hshS⟩ := hs.2.2.1
            obtain ⟨new1, hnew1, hsh1⟩ := progressStep_shape rid sp
              (scanFull c rid now p (d + 1) sub { st with ticks := st.ticks + 1 }).2
            obtain ⟨new2, hnew2, hsh2⟩ := key.2.2.1
            refine ⟨new2 ++ (new1 ++ newS), ?_, ?_⟩
            · rw [hnew2, hnew1, hnewS, List.append_assoc, List.append_assoc]
            · intro x hx
              rcases List.mem_append.1 hx with hx | hx
              · exact hsh2 x hx
              · rcases List.mem_append.1 hx with hx | hx
                · exact hsh1 x hx
                · exact hshS x hx
          · intro hinv
            exact key.2.2.2 (progressStep_inv _ _ _ (hs.2.2.2 (ticks_inv st _ hinv)))
        | .other p =>
          have hrest : sizeOf rest ≤ n := by
            have := one_le_sizeOf_entry (Entry.other p)
            simp_arith at hl; omega
          rw [scanLoop_cons_other _ _ _ _ _ _ _ _ _ _ hc]
          have key := ih rest hrest c rid now sp d acc batch
            (progressStep rid sp { st with ticks := st.ticks + 1 })
          refine ⟨?_, ?_, ?_, ?_⟩
          · exact addAgg_spec_other acc p rest ▸ key.1
          · refine le_trans ?_ key.2.1
            rw [progressStep_itemsScanned]
          · obtain ⟨new1, hnew1, hsh1⟩ := progressStep_shape rid sp
              { st with ticks := st.ticks + 1 }
            obtain ⟨new2, hnew2, hsh2⟩ := key.2.2.1
            refine ⟨new2 ++ new1, ?_, ?_⟩
            · rw [hnew2, hnew1, List.append_assoc]
            · intro x hx
              rcases List.mem_append.1 hx with hx | hx
              · exact hsh2 x hx
              · exact hsh1 x hx
          · intro hinv
            exact key.2.2.2 (progressStep_inv _ _ _ (ticks_inv st _ hinv))

/-! ## Store helper lemmas -/

theorem conflictUpdate_path (row : ItemRow) (n : ItemRecord) :
    (conflictUpdate row n).path = row.path := rfl

theorem conflictUpdate_idem (row : ItemRow) (n : ItemRecord) :
    conflictUpdate (conflictUpdate row n) n = conflictUpdate row n := by
  unfold conflictUpdate
  by_cases h : n.scannedUtc = "" <;> simp [h]

theorem conflictUpdate_toRow (n : ItemRecord) :
    conflictUpdate (toRow n) n = toRow n := by
  unfold conflictUpdate toRow
  by_cases h : n.scannedUtc = "" <;> simp [h]

theorem map_noMatch (s : Store) (n : ItemRecord) (hall : ∀ row ∈ s, ¬(row.path = n.path)) :
    s.map (fun row => if row.path = n.path then conflictUpdate row n else row) = s := by
  induction s with
  | nil => rfl
  | cons a rest ih =>
    simp only [List.map_cons, List.cons.injEq]
    refine ⟨by rw [if_neg (hall a (by simp))], ih ?_⟩
    intro row hrow
    exact hall row (by simp [hrow])

theorem upsertRow_idem (s : Store) (n : ItemRecord) :
    upsertRow (upsertRow s n) n = upsertRow s n := by
  unfold upsertRow
  by_cases hmem : s.any (fun row => row.path == n.path) = true
  · rw [if_pos hmem]
    have hmem2 : (s.map (fun row => if row.path = n.path then conflictUpdate row n else row)).any
        (fun row => row.path == n.path) = true := by
      rw [List.any_eq_true] at hmem ⊢
      obtain ⟨row, hrow, hpath⟩ := hmem
      refine ⟨if row.path = n.path then conflictUpdate row n else row, List.mem_map_of_mem _ hrow, ?_⟩
      split
      case isTrue h => simpa [conflictUpdate_path]
      case isFalse h => exact hpath
    rw [if_pos hmem2, List.map_map]
    congr 1
    funext row
    simp only [Function.comp_apply]
    by_cases hp : row.path = n.path
    · simp only [if_pos hp, conflictUpdate_path]
      exact conflictUpdate_idem row n
    · simp only [if_neg hp]
  · rw [if_neg hmem]
    have hall : ∀ row ∈ s, ¬(row.path = n.path) := by
      intro row hrow h
      exact hmem (List.any_eq_true.2 ⟨row, hrow, by simp [h]⟩)
    have hmem2 : ((s ++ [toRow n]).any (fun row => row.path == n.path)) = true := by
      rw [List.any_eq_true]
      exact ⟨toRow n, by simp, by simp [toRow]⟩
    rw [if_pos hmem2, List.map_append, map_noMatch s n hall]
    simp only [List.map_cons, List.map_nil]
    rw [if_pos (show (toRow n).path = n.path from rfl), conflictUpdate_toRow]

theorem upsertItems_single (s : Store) (n : ItemRecord) :
    upsertItems (some s) [n]
      = some (if n.type ≠ "File" ∧ n.type ≠ "Folder" then s else upsertRow s n) := rfl

/-- C2 helper: one fold step of `upsertItems` is idempotent. -/
theorem upsertStep_idem (s : Store) (n : ItemRecord) :
    upsertItems (upsertItems (some s) [n]) [n] = upsertItems (some s) [n] := by
  rw [upsertItems_single, upsertItems_single]
  by_cases hbad : n.type ≠ "File" ∧ n.type ≠ "Folder"
  · simp only [if_pos hbad]
  · simp only [if_neg hbad, upsertRow_idem]

theorem find?_unique (s : Store) (old : ItemRow) (p : String)
    (hu : s.Pairwise (fun a b => a.path ≠ b.path)) (hmem : old ∈ s) (hp : old.path = p) :
    s.find? (fun r => r.path == p) = some old := by
  induction s with
  | nil => cases hmem
  | cons a rest ih =>
    rcases List.mem_cons.1 hmem with h | h
    · subst h
      simp [List.find?, hp]
    · have hne : a.path ≠ p := by
        have := (List.pairwise_cons.1 hu).1 old h
        rw [hp] at this
        exact this
      rw [List.find?]
      have : (a.path == p) = false := by simp [hne]
      rw [this]
      exact ih (List.pairwise_cons.1 hu).2 h

theorem find?_map_path_preserving (s : Store) (p : String)
    (f : ItemRow → ItemRow) (hf : ∀ row, (f row).path = row.path) :
    (s.map f).find? (fun r => r.path == p) = (s.find? (fun r => r.path == p)).map f := by
  induction s with
  | nil => rfl
  | cons a rest ih =>
    simp only [List.map_cons, List.find?]
    rw [hf a]
    cases h : (a.path == p) <;> simp [ih]

theorem upsertFold_filter (items : List ItemRecord) : ∀ s : Store,
    items.foldl (fun acc item =>
        if item.type ≠ "File" ∧ item.type ≠ "Folder" then acc else upsertRow acc item) s
      = (items.filter (fun r => r.type == "File" || r.type == "Folder")).foldl
          (fun acc item =>
            if item.type ≠ "File" ∧ item.type ≠ "Folder" then acc else upsertRow acc item) s := by
  induction items with
  | nil => intro s; rfl
  | cons x rest ih =>
    intro s
    by_cases hx : x.type = "File" ∨ x.type = "Folder"
    · have hbool : (x.type == "File" || x.type == "Folder") = true := by
        rcases hx with h | h <;> simp [h]
      have hgood : ¬(x.type ≠ "File" ∧ x.type ≠ "Folder") := by tauto
      simp only [List.foldl_cons, List.filter_cons, hbool, if_true, if_neg hgood]
      exact ih (upsertRow s x)
    · have hbool : (x.type == "File" || x.type == "Folder") = false := by
        push_neg at hx
        simp [hx.1, hx.2]
      have hbad : x.type ≠ "File" ∧ x.type ≠ "Folder" := by tauto
      simp only [List.foldl_cons, List.filter_cons, hbool, if_pos hbad, Bool.false_eq_true,
        if_false]
      exact ih s

theorem upsertRow_kinds (s : Store) (n : ItemRecord)
    (hs : ∀ row ∈ s, row.type = "File" ∨ row.type = "Folder")
    (hn : n.type = "File" ∨ n.type = "Folder") :
    ∀ row ∈ upsertRow s n, row.type = "File" ∨ row.type = "Folder" := by
  unfold upsertRow
  split
  · intro row hrow
    obtain ⟨orig, horig, heq⟩ := List.mem_map.1 hrow
    subst heq
    split
    · exact hn
    · exact hs orig horig
  · intro row hrow
    rcases List.mem_append.1 hrow with h | h
    · exact hs row h
    · rcases List.mem_singleton.1 h with rfl
      exact hn

theorem upsertFold_kinds (items : List ItemRecord) : ∀ s : Store,
    (∀ row ∈ s, row.type = "File" ∨ row.type = "Folder") →
    ∀ row ∈ items.foldl (fun acc item =>
        if item.type ≠ "File" ∧ item.type ≠ "Folder" then acc else upsertRow acc item) s,
      row.type = "File" ∨ row.type = "Folder" := by
  induction items with
  | nil => intro s hs; exact hs
  | cons x rest ih =>
    intro s hs
    simp only [List.foldl_cons]
    by_cases hx : x.type ≠ "File" ∧ x.type ≠ "Folder"
    · rw [if_pos hx]
      exact ih s hs
    · rw [if_neg hx]
      refine ih (upsertRow s x) (upsertRow_kinds s x hs ?_)
      tauto

/-- C9: `upsertBatch` silently drops, before the transaction, every row
whose kind tag is neither `"File"` nor `"Folder"` (the stored tag for
Directory), while still applying the remaining rows; consequently every
row of a store whose rows all carry a valid kind still carries a valid
kind after any upsert, and after a reset. -/
theorem claim9_kind_filter (db : Db) (items : List ItemRecord) :
    upsertItems db items
      = upsertItems db (items.filter (fun r => r.type == "File" || r.type == "Folder")) ∧
    (∀ s s2, db = some s →
      (∀ row ∈ s, row.type = "File" ∨ row.type = "Folder") →
      upsertItems db items = some s2 →
      ∀ row ∈ s2, row.type = "File" ∨ row.type = "Folder") ∧
    (∀ s2, resetDb db = some s2 → ∀ row ∈ s2, row.type = "File" ∨ row.type = "Folder") := by
  refine ⟨?_, ?_, ?_⟩
  · cases db with
    | none => rfl
    | some s =>
      simp only [upsertItems]
      by_cases hempty : items.isEmpty
      · have h0 : items = [] := List.isEmpty_iff.1 hempty
        subst h0
        rfl
      · rw [if_neg hempty]
        by_cases hf : (items.filter (fun r => r.type == "File" || r.type == "Folder")).isEmpty
        · rw [if_pos hf]
          have h0 := List.isEmpty_iff.1 hf
          rw [upsertFold_filter, h0]
          rfl
        · rw [if_neg hf, upsertFold_filter]
  · intro s s2 hdb hinv hup
    subst hdb
    simp only [upsertItems] at hup
    by_cases hempty : items.isEmpty
    · rw [if_pos hempty] at hup
      cases hup
      exact hinv
    · rw [if_neg hempty] at hup
      cases hup
      exact upsertFold_kinds items s hinv
  · intro s2 hreset
    cases db with
    | none => cases hreset
    | some s =>
      cases hreset
      intro row hrow
      cases hrow

/-- C9 witness: a concrete batch `[symlink-tagged row, File row]` over the
empty store: the symlink row is dropped, the File row applied, and the
resulting single-row store satisfies the kind invariant. -/
theorem claim9_witness :
    upsertItems (some []) [
        { path := "/x", parent := "", type := "Symlink", sizeBytes := 1, fileCount := 0,
          folderCount := 0, lastWriteUtc := "L", scannedUtc := "", depth := 1, runId := "r" },
        { path := "/y", parent := "", type := "File", sizeBytes := 2, fileCount := 1,
          folderCount := 0, lastWriteUtc := "L", scannedUtc := "", depth := 1, runId := "r" }]
      = upsertItems (some []) ([
        { path := "/x", parent := "", type := "Symlink", sizeBytes := 1, fileCount := 0,
          folderCount := 0, lastWriteUtc := "L", scannedUtc := "", depth := 1, runId := "r" },
        { path := "/y", parent := "", type := "File", sizeBytes := 2, fileCount := 1,
          folderCount := 0, lastWriteUtc := "L", scannedUtc := "", depth := 1, runId := "r" }].filter
          (fun r => r.type == "File" || r.type == "Folder")) ∧
    ∀ row ∈ [toRow
        { path := "/y", parent := "", type := "File", sizeBytes := 2, fileCount := 1,
          folderCount := 0, lastWriteUtc := "L", scannedUtc := "", depth := 1, runId := "r" }],
      row.type = "File" ∨ row.type = "Folder" := by
  have base := claim9_kind_filter (some []) [
    { path := "/x", parent := "", type := "Symlink", sizeBytes := 1, fileCount := 0,
      folderCount := 0, lastWriteUtc := "L", scannedUtc := "", depth := 1, runId := "r" },
    { path := "/y", parent := "", type := "File", sizeBytes := 2, fileCount := 1,
      folderCount := 0, lastWriteUtc := "L", scannedUtc := "", depth := 1, runId := "r" }]
  refine ⟨base.1, base.2.1 [] _ rfl (by intro row hrow; cases hrow) ?_⟩
  decide

/-- C2: upserting the same record twice leaves the store exactly as
upserting it once; and on a `path` conflict the stored row takes every
column from the new record except `scannedUtc` (`indexedAt`), which keeps
the previously stored value when the incoming one is empty and is replaced
when it is non-empty. -/
theorem claim2_idempotent_sticky :
    (∀ (db : Db) (n : ItemRecord),
      upsertItems (upsertItems db [n]) [n] = upsertItems db [n]) ∧
    (∀ (s : Store) (old : ItemRow) (n : ItemRecord),
      s.Pairwise (fun a b => a.path ≠ b.path) → old ∈ s → old.path = n.path →
      (n.type = "File" ∨ n.type = "Folder") →
      upsertItems (some s) [n]
        = some (s.map (fun row => if row.path = n.path then conflictUpdate row n else row)) ∧
      (s.map (fun row => if row.path = n.path then conflictUpdate row n else row)).find?
          (fun r => r.path == n.path)
        = some { path := old.path,
                 parent := if n.parent = "" then none else some n.parent,
                 type := n.type, sizeBytes := n.sizeBytes, fileCount := n.fileCount,
                 folderCount := n.folderCount, lastWriteUtc := n.lastWriteUtc,
                 scannedUtc := if n.scannedUtc = "" then old.scannedUtc else n.scannedUtc,
                 depth := n.depth, runId := n.runId }) := by
  constructor
  · intro db n
    cases db with
    | none => rfl
    | some s => exact upsertStep_idem s n
  · intro s old n hu hmem hpath htype
    have hgood : ¬(n.type ≠ "File" ∧ n.type ≠ "Folder") := by tauto
    have hany : s.any (fun row => row.path == n.path) = true :=
      List.any_eq_true.2 ⟨old, hmem, by simp [hpath]⟩
    constructor
    · rw [upsertItems_single, if_neg hgood]
      unfold upsertRow
      rw [if_pos hany]
    · rw [find?_map_path_preserving s n.path _
        (fun row => by by_cases h : row.path = n.path <;> simp [h, conflictUpdate_path])]
      rw [find?_unique s old n.path hu hmem hpath]
      show some (if old.path = n.path then conflictUpdate old n else old) = some _
      rw [if_pos hpath]
      rfl

/-- C2 witness: a store holding one row at `/a` with a non-empty stored
scan timestamp, upserted twice with a conflicting record carrying an empty
timestamp: the double upsert equals the single one, and the stored row
takes every column from the new record except the sticky `scannedUtc`,
which keeps `"T1"`. -/
theorem claim2_witness :
    upsertItems (upsertItems (some [
        { path := "/a", parent := some "/p", type := "File", sizeBytes := 1, fileCount := 1,
          folderCount := 0, lastWriteUtc := "L1", scannedUtc := "T1", depth := 1,
          runId := "r0" }]) [
        { path := "/a", parent := "", type := "Folder", sizeBytes := 5, fileCount := 2,
          folderCount := 1, lastWriteUtc := "L2", scannedUtc := "", depth := 0,
          runId := "r1" }]) [
        { path := "/a", parent := "", type := "Folder", sizeBytes := 5, fileCount := 2,
          folderCount := 1, lastWriteUtc := "L2", scannedUtc := "", depth := 0,
          runId := "r1" }]
      = upsertItems (some [
        { path := "/a", parent := some "/p", type := "File", sizeBytes := 1, fileCount := 1,
          folderCount := 0, lastWriteUtc := "L1", scannedUtc := "T1", depth := 1,
          runId := "r0" }]) [
        { path := "/a", parent := "", type := "Folder", sizeBytes := 5, fileCount := 2,
          folderCount := 1, lastWriteUtc := "L2", scannedUtc := "", depth := 0,
          runId := "r1" }] ∧
    upsertItems (some [
        { path := "/a", parent := some "/p", type := "File", sizeBytes := 1, fileCount := 1,
          folderCount := 0, lastWriteUtc := "L1", scannedUtc := "T1", depth := 1,
          runId := "r0" }]) [
        { path := "/a", parent := "", type := "Folder", sizeBytes := 5, fileCount := 2,
          folderCount := 1, lastWriteUtc := "L2", scannedUtc := "", depth := 0,
          runId := "r1" }]
      = some [
        { path := "/a", parent := none, type := "Folder", sizeBytes := 5, fileCount := 2,
          folderCount := 1, lastWriteUtc := "L2", scannedUtc := "T1", depth := 0,
          runId := "r1" }] := by
  have base := claim2_idempotent_sticky.2 [
      { path := "/a", parent := some "/p", type := "File", sizeBytes := 1, fileCount := 1,
        folderCount := 0, lastWriteUtc := "L1", scannedUtc := "T1", depth := 1, runId := "r0" }]
    { path := "/a", parent := some "/p", type := "File", sizeBytes := 1, fileCount := 1,
      folderCount := 0, lastWriteUtc := "L1", scannedUtc := "T1", depth := 1, runId := "r0" }
    { path := "/a", parent := "", type := "Folder", sizeBytes := 5, fileCount := 2,
      folderCount := 1, lastWriteUtc := "L2", scannedUtc := "", depth := 0, runId := "r1" }
    (by simp) (by simp) rfl (Or.inr rfl)
  refine ⟨claim2_idempotent_sticky.1 _ _, ?_⟩
  rw [base.1]
  decide

/-- C7 counterexample: with the connection not open (`db_ == nullptr`,
the state after a failed `open()`), every operation returns normally with
exactly the value an open *empty* store would return for a successful
call — upsert reports no failure, point lookup returns "not found", and
the queries return empty lists — so no operation fails fast with a
distinct "not open" condition. -/
theorem claim7_counterexample :
    upsertItems none [
      { path := "/a", parent := "", type := "File", sizeBytes := 1,
        fileCount := 1, folderCount := 0, lastWriteUtc := "L", scannedUtc := "",
        depth := 0, runId := "r" }] = none ∧
    getItemByPath none "/a" = getItemByPath (some []) "/a" ∧
    getChildren none (some "/a") 10 0 "size_desc" true
      = getChildren (some []) (some "/a") 10 0 "size_desc" true ∧
    getRoots none 10 "size_desc" = getRoots (some []) 10 "size_desc" ∧
    getTop none "File" 10 = getTop (some []) "File" 10 :=
  ⟨rfl, rfl, rfl, rfl, rfl⟩

/-- C7 (amended): when the store connection is not open, every Store
operation returns without touching the store and yields a neutral value:
`upsertItems` leaves the handle unchanged and signals nothing,
`getItemByPath` returns "not found", and `getChildren`/`getRoots`/`getTop`
return empty lists — indistinguishable from successful calls on an open
empty store. -/
theorem claim7_not_open_noop (items : List ItemRecord) (p : String)
    (parent : Option String) (limit offset k : Nat) (sort type : String)
    (includeFiles : Bool) :
    upsertItems none items = none ∧
    getItemByPath none p = none ∧
    getChildren none parent limit offset sort includeFiles = [] ∧
    getRoots none limit sort = [] ∧
    getTop none type k = [] :=
  ⟨rfl, rfl, rfl, rfl, rfl⟩

/-! ## Sorting and membership helpers for the query claims -/

theorem mem_insertBy (le : α → α → Bool) (a x : α) (l : List α) :
    a ∈ insertBy le x l ↔ a = x ∨ a ∈ l := by
  induction l with
  | nil => simp [insertBy]
  | cons b bs ih =>
    unfold insertBy
    split
    · simp
    · simp only [List.mem_cons, ih]
      tauto

theorem mem_sortBy (le : α → α → Bool) (a : α) (l : List α) :
    a ∈ sortBy le l ↔ a ∈ l := by
  induction l with
  | nil => simp [sortBy]
  | cons b bs ih =>
    show a ∈ insertBy le b (sortBy le bs) ↔ _
    rw [mem_insertBy]
    simp only [List.mem_cons]
    rw [ih]

theorem length_insertBy (le : α → α → Bool) (x : α) (l : List α) :
    (insertBy le x l).length = l.length + 1 := by
  induction l with
  | nil => rfl
  | cons b bs ih =>
    unfold insertBy
    split
    · simp
    · simp [ih]

theorem length_sortBy (le : α → α → Bool) (l : List α) :
    (sortBy le l).length = l.length := by
  induction l with
  | nil => rfl
  | cons b bs ih =>
    show (insertBy le b (sortBy le bs)).length = _
    rw [length_insertBy, ih]
    rfl

theorem mem_sortRows (sort : String) (a : ItemRow) (s : List ItemRow) :
    a ∈ sortRows sort s ↔ a ∈ s := by
  unfold sortRows
  split <;> exact mem_sortBy _ a s

theorem length_sortRows (sort : String) (s : List ItemRow) :
    (sortRows sort s).length = s.length := by
  unfold sortRows
  split <;> exact length_sortBy _ s

theorem mem_take_sortRows (sort : String) (limit : Nat) (A : List ItemRow) (row : ItemRow)
    (hlen : A.length ≤ limit) (hmem : row ∈ A) :
    row ∈ (sortRows sort A).take limit := by
  rw [List.take_of_length_le (by rw [length_sortRows]; exact hlen)]
  exact (mem_sortRows sort row A).2 hmem

/-- The root predicate holds outright for a parentless row. -/
theorem rootPred_of_parent_none (s : Store) (row : ItemRow) (h : row.parent = none) :
    rootPred s row = true := by
  unfold rootPred
  rw [h]


theorem rootPred_iff (s : Store) (row : ItemRow) :
    rootPred s row = true ↔ specIsRootLike s row := by
  unfold rootPred specIsRootLike
  cases hp : row.parent with
  | none => simp
  | some p =>
    simp only [hp, Bool.and_eq_true, Bool.not_eq_true', List.any_eq_false, beq_iff_eq,
      Bool.and_eq_true, decide_eq_true_eq, not_and, ne_eq, Option.some.injEq,
      reduceCtorEq, false_or]
    constructor
    · rintro ⟨h1, h2⟩
      exact ⟨fun r hr heq => h1 r hr heq.symm, fun r hr hpar hpre => h2 r hr hpar hpre⟩
    · rintro ⟨h1, h2⟩
      exact ⟨fun r hr heq => h1 r hr heq.symm, fun r hr hpar hpre => h2 r hr hpar hpre⟩

/-- C3 counterexample: the claim reads the root query's containment test
as plain prefix containment, but the query's `items.path LIKE r.path ||
'%'` treats `_` in the parentless path as a one-character wildcard (and
folds ASCII case).  Store: parentless `/data/my_file` and `/data/myXfile`
with parent `/nope` absent from the store.  `/data/my_file` is not a
prefix of `/data/myXfile`, so under the claim's characterization the
latter is a root; yet `getRoots` excludes it, because `/data/myXfile`
LIKE `/data/my_file%` holds via the `_` wildcard — the claimed
equivalence fails even though the limit covers the store. -/
theorem claim3_counterexample :
    ([(
      { path := "/data/my_file", parent := none, type := "Folder", sizeBytes := 5,
        fileCount := 1, folderCount := 0, lastWriteUtc := "L", scannedUtc := "",
        depth := 0, runId := "r" } : ItemRow),
      { path := "/data/myXfile", parent := some "/nope", type := "Folder", sizeBytes := 1,
        fileCount := 0, folderCount := 0, lastWriteUtc := "L", scannedUtc := "",
        depth := 0, runId := "r" }].length ≤ 10) ∧
    ¬ (({ path := "/data/myXfile", parent := "/nope", type := "Folder", sizeBytes := 1,
          fileCount := 0, folderCount := 0, lastWriteUtc := "L", scannedUtc := "",
          depth := 0, runId := "r" } : ItemRecord) ∈ getRoots (some [
      { path := "/data/my_file", parent := none, type := "Folder", sizeBytes := 5,
        fileCount := 1, folderCount := 0, lastWriteUtc := "L", scannedUtc := "",
        depth := 0, runId := "r" },
      { path := "/data/myXfile", parent := some "/nope", type := "Folder", sizeBytes := 1,
        fileCount := 0, folderCount := 0, lastWriteUtc := "L", scannedUtc := "",
        depth := 0, runId := "r" }]) 10 "size_desc" ↔
      ∃ row ∈ [(
        { path := "/data/my_file", parent := none, type := "Folder", sizeBytes := 5,
          fileCount := 1, folderCount := 0, lastWriteUtc := "L", scannedUtc := "",
          depth := 0, runId := "r" } : ItemRow),
        { path := "/data/myXfile", parent := some "/nope", type := "Folder", sizeBytes := 1,
          fileCount := 0, folderCount := 0, lastWriteUtc := "L", scannedUtc := "",
          depth := 0, runId := "r" }], specIsRoot [
        { path := "/data/my_file", parent := none, type := "Folder", sizeBytes := 5,
          fileCount := 1, folderCount := 0, lastWriteUtc := "L", scannedUtc := "",
          depth := 0, runId := "r" },
        { path := "/data/myXfile", parent := some "/nope", type := "Folder", sizeBytes := 1,
          fileCount := 0, folderCount := 0, lastWriteUtc := "L", scannedUtc := "",
          depth := 0, runId := "r" }] row ∧ toRecord row =
        { path := "/data/myXfile", parent := "/nope", type := "Folder", sizeBytes := 1,
          fileCount := 0, folderCount := 0, lastWriteUtc := "L", scannedUtc := "",
          depth := 0, runId := "r" }) := by
  refine ⟨by decide, fun h => ?_⟩
  have hmem := h.2 ⟨
    { path := "/data/myXfile", parent := some "/nope", type := "Folder", sizeBytes := 1,
      fileCount := 0, folderCount := 0, lastWriteUtc := "L", scannedUtc := "",
      depth := 0, runId := "r" }, by simp, by unfold specIsRoot likeMatch; decide, rfl⟩
  exact absurd hmem (by decide)

/-- C3 (amended): `getRoots` returns exactly the stored rows that are
explicitly parentless, or whose declared parent is not a stored path while
the row's path does not match any other parentless row's path followed by
`%` under SQLite LIKE semantics (ASCII-case-insensitive, with `%`/`_` in
the stored path acting as wildcards) — whenever the limit covers the
store; on the spec's three-row example it returns `/a` and `/c` but not
`/a/b`. -/
theorem claim3_getRoots_characterization :
    (∀ (s : Store) (limit : Nat) (sort : String) (rec : ItemRecord), s.length ≤ limit →
      (rec ∈ getRoots (some s) limit sort ↔
        ∃ row ∈ s, specIsRootLike s row ∧ toRecord row = rec)) ∧
    getRoots (some [
      { path := "/a", parent := none, type := "Folder", sizeBytes := 3, fileCount := 1,
        folderCount := 1, lastWriteUtc := "L", scannedUtc := "", depth := 0, runId := "r" },
      { path := "/a/b", parent := some "/a", type := "Folder", sizeBytes := 2, fileCount := 1,
        folderCount := 0, lastWriteUtc := "L", scannedUtc := "", depth := 1, runId := "r" },
      { path := "/c", parent := some "/missing", type := "Folder", sizeBytes := 1,
        fileCount := 0, folderCount := 0, lastWriteUtc := "L", scannedUtc := "", depth := 0,
        runId := "r" }]) 10 "size_desc"
      = [
      { path := "/a", parent := "", type := "Folder", sizeBytes := 3, fileCount := 1,
        folderCount := 1, lastWriteUtc := "L", scannedUtc := "", depth := 0, runId := "r" },
      { path := "/c", parent := "/missing", type := "Folder", sizeBytes := 1,
        fileCount := 0, folderCount := 0, lastWriteUtc := "L", scannedUtc := "", depth := 0,
        runId := "r" }] := by
  constructor
  · intro s limit sort rec hlim
    show rec ∈ ((sortRows sort (s.filter (fun row => rootPred s row))).take limit).map toRecord
      ↔ _
    constructor
    · intro h
      obtain ⟨row, hrow, heq⟩ := List.mem_map.1 h
      have h2 : row ∈ sortRows sort (s.filter (fun row => rootPred s row)) :=
        List.mem_of_mem_take hrow
      rw [mem_sortRows] at h2
      have h3 := List.mem_filter.1 h2
      exact ⟨row, h3.1, (rootPred_iff s row).1 h3.2, heq⟩
    · rintro ⟨row, hrow, hroot, heq⟩
      refine List.mem_map.2 ⟨row, ?_, heq⟩
      apply mem_take_sortRows
      · exact le_trans (List.length_filter_le _ _) hlim
      · exact List.mem_filter.2 ⟨hrow, (rootPred_iff s row).2 hroot⟩
  · decide

/-- C3 witness: the amended characterization applied at the spec's
three-row example store with limit 10 for the row at `/a`. -/
theorem claim3_witness :
    (({ path := "/a", parent := "", type := "Folder", sizeBytes := 3, fileCount := 1,
        folderCount := 1, lastWriteUtc := "L", scannedUtc := "", depth := 0,
        runId := "r" } : ItemRecord) ∈ getRoots (some [
      { path := "/a", parent := none, type := "Folder", sizeBytes := 3, fileCount := 1,
        folderCount := 1, lastWriteUtc := "L", scannedUtc := "", depth := 0, runId := "r" },
      { path := "/a/b", parent := some "/a", type := "Folder", sizeBytes := 2, fileCount := 1,
        folderCount := 0, lastWriteUtc := "L", scannedUtc := "", depth := 1, runId := "r" },
      { path := "/c", parent := some "/missing", type := "Folder", sizeBytes := 1,
        fileCount := 0, folderCount := 0, lastWriteUtc := "L", scannedUtc := "", depth := 0,
        runId := "r" }]) 10 "size_desc") ↔
    (∃ row ∈ [
      { path := "/a", parent := none, type := "Folder", sizeBytes := 3, fileCount := 1,
        folderCount := 1, lastWriteUtc := "L", scannedUtc := "", depth := 0, runId := "r" },
      { path := "/a/b", parent := some "/a", type := "Folder", sizeBytes := 2, fileCount := 1,
        folderCount := 0, lastWriteUtc := "L", scannedUtc := "", depth := 1, runId := "r" },
      { path := "/c", parent := some "/missing", type := "Folder", sizeBytes := 1,
        fileCount := 0, folderCount := 0, lastWriteUtc := "L", scannedUtc := "", depth := 0,
        runId := "r" }], specIsRootLike [
      { path := "/a", parent := none, type := "Folder", sizeBytes := 3, fileCount := 1,
        folderCount := 1, lastWriteUtc := "L", scannedUtc := "", depth := 0, runId := "r" },
      { path := "/a/b", parent := some "/a", type := "Folder", sizeBytes := 2, fileCount := 1,
        folderCount := 0, lastWriteUtc := "L", scannedUtc := "", depth := 1, runId := "r" },
      { path := "/c", parent := some "/missing", type := "Folder", sizeBytes := 1,
        fileCount := 0, folderCount := 0, lastWriteUtc := "L", scannedUtc := "", depth := 0,
        runId := "r" }] row ∧ toRecord row =
      { path := "/a", parent := "", type := "Folder", sizeBytes := 3, fileCount := 1,
        folderCount := 1, lastWriteUtc := "L", scannedUtc := "", depth := 0,
        runId := "r" }) :=
  claim3_getRoots_characterization.1 _ 10 "size_desc" _ (by simp)

theorem find?_append_of_none (l1 l2 : Store) (p : ItemRow → Bool)
    (h : l1.find? p = none) : (l1 ++ l2).find? p = l2.find? p := by
  induction l1 with
  | nil => rfl
  | cons a rest ih =>
    rw [List.find?_eq_none] at h
    have ha : p a = false := by
      have := h a (by simp)
      simpa using this
    rw [List.cons_append, List.find?_cons_of_neg _ (by simp [ha])]
    refine ih ?_
    rw [List.find?_eq_none]
    intro x hx
    exact h x (by simp [hx])

/-- C10: a record upserted with an empty `parent` string is stored as a
parentless row: it appears under `getChildren` with an absent parent, is
classified by the explicitly-parentless branch of the root predicate and
appears in `getRoots`, and `getItemByPath` returns it with an empty
`parent` string. -/
theorem claim10_empty_parent_roundtrip (s : Store) (n : ItemRecord)
    (hpar : n.parent = "") (htype : n.type = "File" ∨ n.type = "Folder") :
    ∃ s2, upsertItems (some s) [n] = some s2 ∧
      ∃ row ∈ s2, row.path = n.path ∧ row.parent = none ∧
        rootPred s2 row = true ∧
        toRecord row ∈ getChildren (some s2) none s2.length 0 "name_asc" true ∧
        toRecord row ∈ getRoots (some s2) s2.length "name_asc" ∧
        ∃ r, getItemByPath (some s2) n.path = some r ∧ r.parent = "" := by
  have hgood : ¬(n.type ≠ "File" ∧ n.type ≠ "Folder") := by tauto
  have hchild : ∀ (s2 : Store) (row : ItemRow), row ∈ s2 → row.parent = none →
      toRecord row ∈ getChildren (some s2) none s2.length 0 "name_asc" true := by
    intro s2 row hmem hparent
    show toRecord row ∈ (((sortRows "name_asc" (s2.filter (fun row =>
      decide (row.parent = none) && (true || decide (row.type = "Folder"))))).drop 0).take
        s2.length).map toRecord
    rw [List.drop_zero]
    refine List.mem_map_of_mem toRecord ?_
    apply mem_take_sortRows
    · exact List.length_filter_le _ _
    · exact List.mem_filter.2 ⟨hmem, by simp [hparent]⟩
  have hroots : ∀ (s2 : Store) (row : ItemRow), row ∈ s2 → row.parent = none →
      toRecord row ∈ getRoots (some s2) s2.length "name_asc" := by
    intro s2 row hmem hparent
    show toRecord row ∈ ((sortRows "name_asc" (s2.filter (fun row =>
      rootPred s2 row))).take s2.length).map toRecord
    refine List.mem_map_of_mem toRecord ?_
    apply mem_take_sortRows
    · exact List.length_filter_le _ _
    · exact List.mem_filter.2 ⟨hmem, rootPred_of_parent_none s2 row hparent⟩
  by_cases hany : s.any (fun row => row.path == n.path) = true
  · refine ⟨s.map (fun row => if row.path = n.path then conflictUpdate row n else row),
      ?_, ?_⟩
    · rw [upsertItems_single, if_neg hgood]
      unfold upsertRow
      rw [if_pos hany]
    · have hsome : ∃ o, s.find? (fun r => r.path == n.path) = some o := by
        rw [← Option.isSome_iff_exists, List.find?_isSome]
        exact List.any_eq_true.1 hany
      obtain ⟨o, ho⟩ := hsome
      have homem : o ∈ s := List.mem_of_find?_eq_some ho
      have hop : o.path = n.path := by
        have := List.find?_some ho
        simpa using this
      have hmm : conflictUpdate o n ∈ s.map
          (fun row => if row.path = n.path then conflictUpdate row n else row) := by
        have h0 := List.mem_map_of_mem
          (fun row => if row.path = n.path then conflictUpdate row n else row) homem
        simpa [hop] using h0
      refine ⟨conflictUpdate o n, ?_, ?_, ?_, ?_, ?_, ?_, ?_⟩
      · exact hmm
      · rw [conflictUpdate_path, hop]
      · show (if n.parent = "" then none else some n.parent) = none
        rw [hpar]
        rfl
      · apply rootPred_of_parent_none
        show (if n.parent = "" then none else some n.parent) = none
        rw [hpar]
        rfl
      · apply hchild
        · exact hmm
        · show (if n.parent = "" then none else some n.parent) = none
          rw [hpar]
          rfl
      · apply hroots
        · exact hmm
        · show (if n.parent = "" then none else some n.parent) = none
          rw [hpar]
          rfl
      · refine ⟨toRecord (conflictUpdate o n), ?_, ?_⟩
        · show ((s.map (fun row => if row.path = n.path then conflictUpdate row n else row)).find?
            (fun r => r.path == n.path)).map toRecord = _
          rw [find?_map_path_preserving s n.path _
            (fun row => by by_cases h : row.path = n.path <;> simp [h, conflictUpdate_path])]
          rw [ho]
          show some (toRecord (if o.path = n.path then conflictUpdate o n else o)) = _
          rw [if_pos hop]
        · show ((if n.parent = "" then none else some n.parent) : Option String).getD "" = ""
          rw [hpar]
          rfl
  · refine ⟨s ++ [toRow n], ?_, ?_⟩
    · rw [upsertItems_single, if_neg hgood]
      unfold upsertRow
      rw [if_neg hany]
    · refine ⟨toRow n, by simp, rfl, ?_, ?_, ?_, ?_, ?_⟩
      · show (if n.parent = "" then none else some n.parent) = none
        rw [hpar]
        rfl
      · apply rootPred_of_parent_none
        show (if n.parent = "" then none else some n.parent) = none
        rw [hpar]
        rfl
      · apply hchild
        · simp
        · show (if n.parent = "" then none else some n.parent) = none
          rw [hpar]
          rfl
      · apply hroots
        · simp
        · show (if n.parent = "" then none else some n.parent) = none
          rw [hpar]
          rfl
      · refine ⟨toRecord (toRow n), ?_, ?_⟩
        · show (((s ++ [toRow n]).find? (fun r => r.path == n.path)).map toRecord) = _
          rw [find?_append_of_none s [toRow n] _ (by
            rw [List.find?_eq_none]
            intro x hx hpx
            exact hany (List.any_eq_true.2 ⟨x, hx, hpx⟩))]
          rw [List.find?_cons_of_pos _ (by simp [toRow])]
          rfl
        · show ((if n.parent = "" then none else some n.parent) : Option String).getD "" = ""
          rw [hpar]
          rfl

/-- C10 witness: upserting a record at `/a` with an empty parent into the
empty store, instantiating the round-trip theorem. -/
theorem claim10_witness :
    ∃ s2, upsertItems (some []) [
      { path := "/a", parent := "", type := "Folder", sizeBytes := 3, fileCount := 1,
        folderCount := 1, lastWriteUtc := "L", scannedUtc := "", depth := 0,
        runId := "r" }] = some s2 ∧
      ∃ row ∈ s2, row.path = "/a" ∧ row.parent = none ∧
        rootPred s2 row = true ∧
        toRecord row ∈ getChildren (some s2) none s2.length 0 "name_asc" true ∧
        toRecord row ∈ getRoots (some s2) s2.length "name_asc" ∧
        ∃ r, getItemByPath (some s2) "/a" = some r ∧ r.parent = "" :=
  claim10_empty_parent_roundtrip []
    { path := "/a", parent := "", type := "Folder", sizeBytes := 3, fileCount := 1,
      folderCount := 1, lastWriteUtc := "L", scannedUtc := "", depth := 0, runId := "r" }
    rfl (Or.inr rfl)

/-- Full-scan aggregate without cancellation: exactly the subtree
statistics. -/
theorem scanFull_nc_agg (rid : String) (now : Int) (sp : String) (d : Nat)
    (l : List Entry) (st : ScanSt) :
    (scanFull (fun _ => false) rid now sp d l st).1 = specAgg l := by
  rw [scanFull_go _ _ _ _ _ _ _ rfl]
  show (scanLoop (fun _ => false) rid now sp d l zeroResult []
      { st with ticks := st.ticks + 1 }).1 = specAgg l
  rw [(scanLoop_nc (sizeOf l) l (le_refl _) rid now sp d zeroResult [] _
      (by simp [zeroResult])).1]
  exact addAgg_zero_left _ (zero_le_specLatest l)

/-- Full-scan file counter without cancellation: advances by the number of
regular files in the subtree. -/
theorem scanFull_nc_items (rid : String) (now : Int) (sp : String) (d : Nat)
    (l : List Entry) (st : ScanSt) :
    ((scanFull (fun _ => false) rid now sp d l st).2).itemsScanned
      = st.itemsScanned + (subtreeFiles l).length := by
  rw [scanFull_go _ _ _ _ _ _ _ rfl]
  show ((scanLoop (fun _ => false) rid now sp d l zeroResult []
      { st with ticks := st.ticks + 1 }).2.2).itemsScanned = _
  rw [(scanLoop_nc (sizeOf l) l (le_refl _) rid now sp d zeroResult [] _
      (by simp [zeroResult])).2]

/-- Bounds and event facts for an arbitrary cancellation flag, at the
`scanFullAsync` level. -/
theorem scanFull_any (c : Nat → Bool) (rid : String) (now : Int) (sp : String)
    (d : Nat) (l : List Entry) (st : ScanSt) :
    aggLE (scanFull c rid now sp d l st).1 (specAgg l) ∧
    st.itemsScanned ≤ ((scanFull c rid now sp d l st).2).itemsScanned ∧
    (∃ new, ((scanFull c rid now sp d l st).2).events = new ++ st.events ∧
      ∀ e ∈ new, e.state = "running" ∧ e.runId = rid) ∧
    (EventsInv st → EventsInv ((scanFull c rid now sp d l st).2)) := by
  cases hc : c st.ticks with
  | true =>
    rw [scanFull_cancel _ _ _ _ _ _ _ hc]
    exact ⟨aggLE_zero_spec l, le_refl _, ⟨[], rfl, by intro e he; simp at he⟩,
      ticks_inv st _⟩
  | false =>
    rw [scanFull_go _ _ _ _ _ _ _ hc]
    have key := scanLoop_any (sizeOf l) l (le_refl _) c rid now sp d zeroResult []
      { st with ticks := st.ticks + 1 }
    refine ⟨?_, key.2.1, key.2.2.1, fun h => key.2.2.2 (ticks_inv st _ h)⟩
    show aggLE (scanLoop c rid now sp d l zeroResult [] { st with ticks := st.ticks + 1 }).1
      (specAgg l)
    have h0 := key.1
    rwa [addAgg_zero_left _ (zero_le_specLatest l)] at h0

/-- C5: on a readable subtree without cancellation, the deep scan's
aggregate is exactly the subtree statistics: the total size and number of
all regular files (below-threshold files included), the number of all
directories in the subtree, and the maximum file modification time
observed (at least the initial 0). -/
theorem claim5_deep_scan_aggregates (rid : String) (now : Int) (sp : String)
    (d : Nat) (l : List Entry) (st : ScanSt) :
    (scanFull (fun _ => false) rid now sp d l st).1
      = { sizeBytes := specSize l, fileCount := specFileCount l,
          folderCount := specDirCount l, latestMs := specLatest l } := by
  rw [scanFull_nc_agg]
  rfl

/-- C4: the cancellation flag is read at entry to every directory and
before each entry; a call entered with the flag already signaled returns
the zero aggregate `{0,0,0,0}` without emitting any event, and whatever the
flag does over time, the scan returns normally with a partial aggregate
bounded by the full subtree statistics. -/
theorem claim4_cancellation (c : Nat → Bool) (rid : String) (now : Int)
    (sp : String) (d : Nat) (l : List Entry) (st : ScanSt) :
    (c st.ticks = true →
      (scanFull c rid now sp d l st).1
        = { sizeBytes := 0, fileCount := 0, folderCount := 0, latestMs := 0 } ∧
      ((scanFull c rid now sp d l st).2).events = st.events) ∧
    aggLE (scanFull c rid now sp d l st).1
      ((scanFull (fun _ => false) rid now sp d l st).1) := by
  constructor
  · intro h
    rw [scanFull_cancel _ _ _ _ _ _ _ h]
    exact ⟨rfl, rfl⟩
  · rw [scanFull_nc_agg]
    exact (scanFull_any c rid now sp d l st).1

/-- C4 witness: a scan of a one-file directory entered with the flag
already signaled returns the zero aggregate and no events, and its
aggregate is bounded by the uncancelled one. -/
theorem claim4_witness :
    ((scanFull (fun _ => true) "r" 0 "/d" 0 [.file "/d/f" 10 1]
        { itemsScanned := 0, lastProgress := 0, events := [], ticks := 0 }).1
      = { sizeBytes := 0, fileCount := 0, folderCount := 0, latestMs := 0 } ∧
     ((scanFull (fun _ => true) "r" 0 "/d" 0 [.file "/d/f" 10 1]
        { itemsScanned := 0, lastProgress := 0, events := [], ticks := 0 }).2).events = []) ∧
    aggLE (scanFull (fun _ => true) "r" 0 "/d" 0 [.file "/d/f" 10 1]
        { itemsScanned := 0, lastProgress := 0, events := [], ticks := 0 }).1
      ((scanFull (fun _ => false) "r" 0 "/d" 0 [.file "/d/f" 10 1]
        { itemsScanned := 0, lastProgress := 0, events := [], ticks := 0 }).1) :=
  ⟨(claim4_cancellation (fun _ => true) "r" 0 "/d" 0 [.file "/d/f" 10 1]
      { itemsScanned := 0, lastProgress := 0, events := [], ticks := 0 }).1 rfl,
   (claim4_cancellation (fun _ => true) "r" 0 "/d" 0 [.file "/d/f" 10 1]
      { itemsScanned := 0, lastProgress := 0, events := [], ticks := 0 }).2⟩

/-- C1 (code evaluated at the failing input): deep-scanning a directory
holding a 50 KiB file and a 150 KiB file counts both files in the
aggregate; the level-local `batchItems` holds exactly the 150 KiB file's
record (the 50 KiB file is suppressed by the threshold); but since
`scanFullAsync` contains no database call (scanner.cc:252, `TODO: Batch
persist to database`), the store is untouched by the scan and neither file
— in particular not the 150 KiB one — is individually queryable
afterwards. -/
theorem claim1_threshold_no_persist :
    (scanFull (fun _ => false) "r1" 0 "/d" 0
        [.file "/d/small.bin" 51200 1, .file "/d/big.bin" 153600 2]
        { itemsScanned := 0, lastProgress := 0, events := [], ticks := 0 }).1
      = { sizeBytes := 204800, fileCount := 2, folderCount := 0, latestMs := 2 } ∧
    (scanLoop (fun _ => false) "r1" 0 "/d" 0
        [.file "/d/small.bin" 51200 1, .file "/d/big.bin" 153600 2] zeroResult []
        { itemsScanned := 0, lastProgress := 0, events := [], ticks := 1 }).2.1
      = [{ path := "/d/big.bin", parent := "/d", type := "File", sizeBytes := 153600,
           fileCount := 1, folderCount := 0, lastWriteUtc := toIsoString 2,
           scannedUtc := toIsoString 0, depth := 1, runId := "r1" }] ∧
    getItemByPath (some []) "/d/big.bin" = none ∧
    getItemByPath (some []) "/d/small.bin" = none := by
  refine ⟨?_, ?_, rfl, rfl⟩
  · simp [scanFull, scanLoop, checkFlag, progressStep, PROGRESS_INTERVAL, zeroResult,
      MIN_FILE_SIZE_FOR_DB]
  · simp [scanLoop, checkFlag, progressStep, PROGRESS_INTERVAL, zeroResult,
      MIN_FILE_SIZE_FOR_DB, toIsoString]

/-- C8 counterexample: scanning a directory whose single entry is an
(empty) subdirectory iterates over one entry, yet the scanner's counter
stays 0 — `itemsScanned_` is incremented only for regular files
(scanner.cc:201), not for every entry observed. -/
theorem claim8_counterexample :
    ((scanFull (fun _ => false) "r" 0 "/a" 0 [.dir "/a/d" []]
        { itemsScanned := 0, lastProgress := 0, events := [], ticks := 0 }).2).itemsScanned
      = 0 ∧
    entriesObserved [.dir "/a/d" []] = 1 ∧ (0 : Nat) ≠ 1 := by
  refine ⟨?_, ?_, by decide⟩
  · simp [scanFull, scanLoop, checkFlag, progressStep, PROGRESS_INTERVAL, zeroResult]
  · simp [entriesObserved]

/-- C8 (amended): the scanner's counter is monotone and counts exactly the
regular files observed (not all entries); every event the scan delivers
carries `state="running"` — never a terminal state — and the given run id;
and starting from a fresh event log, consecutive progress events are
separated by at least `PROGRESS_INTERVAL` counted files, so each threshold
crossing is reported at most once. -/
theorem claim8_progress_events (c : Nat → Bool) (rid : String) (now : Int)
    (sp : String) (d : Nat) (l : List Entry) (st : ScanSt) :
    st.itemsScanned ≤ ((scanFull c rid now sp d l st).2).itemsScanned ∧
    ((scanFull (fun _ => false) rid now sp d l st).2).itemsScanned
      = st.itemsScanned + (subtreeFiles l).length ∧
    (∃ new, ((scanFull c rid now sp d l st).2).events = new ++ st.events ∧
      ∀ e ∈ new, e.state = "running" ∧ e.runId = rid) ∧
    (st.events = [] → st.lastProgress ≤ st.itemsScanned →
      List.Chain' (fun a b => b.itemsScanned + PROGRESS_INTERVAL ≤ a.itemsScanned)
        ((scanFull c rid now sp d l st).2).events) := by
  refine ⟨(scanFull_any c rid now sp d l st).2.1, scanFull_nc_items rid now sp d l st,
    (scanFull_any c rid now sp d l st).2.2.1, ?_⟩
  intro hev hlp
  have hinv : EventsInv st := by
    refine ⟨?_, ?_, hlp⟩
    · rw [hev]; exact List.chain'_nil
    · rw [hev]; intro e he; cases he
  exact ((scanFull_any c rid now sp d l st).2.2.2 hinv).1

/-- C8 witness: the amended progress facts instantiated on a concrete
two-file directory scanned from a fresh state with no cancellation. -/
theorem claim8_witness :
    (0 ≤ ((scanFull (fun _ => false) "r" 0 "/d" 0
        [.file "/d/f" 10 1, .file "/d/g" 20 2]
        { itemsScanned := 0, lastProgress := 0, events := [], ticks := 0 }).2).itemsScanned) ∧
    ((scanFull (fun _ => false) "r" 0 "/d" 0
        [.file "/d/f" 10 1, .file "/d/g" 20 2]
        { itemsScanned := 0, lastProgress := 0, events := [], ticks := 0 }).2).itemsScanned
      = 0 + (subtreeFiles [.file "/d/f" 10 1, .file "/d/g" 20 2]).length ∧
    (∃ new, ((scanFull (fun _ => false) "r" 0 "/d" 0
        [.file "/d/f" 10 1, .file "/d/g" 20 2]
        { itemsScanned := 0, lastProgress := 0, events := [], ticks := 0 }).2).events
        = new ++ [] ∧
      ∀ e ∈ new, e.state = "running" ∧ e.runId = "r") ∧
    List.Chain' (fun a b => b.itemsScanned + PROGRESS_INTERVAL ≤ a.itemsScanned)
      ((scanFull (fun _ => false) "r" 0 "/d" 0
        [.file "/d/f" 10 1, .file "/d/g" 20 2]
        { itemsScanned := 0, lastProgress := 0, events := [], ticks := 0 }).2).events := by
  have h := claim8_progress_events (fun _ => false) "r" 0 "/d" 0
    [.file "/d/f" 10 1, .file "/d/g" 20 2]
    { itemsScanned := 0, lastProgress := 0, events := [], ticks := 0 }
  exact ⟨h.1, h.2.1, h.2.2.1, h.2.2.2 rfl (le_refl 0)⟩





theorem countFilesTop_file_cons (p : String) (sz : Nat) (mt : Int) (rest : List Entry) :
    countFilesTop (.file p sz mt :: rest) = 1 + countFilesTop rest := by
  simp [countFilesTop, entryIsFile]
  omega

theorem countFilesTop_dir_cons (p : String) (sub rest : List Entry) :
    countFilesTop (.dir p sub :: rest) = countFilesTop rest := by
  simp [countFilesTop, entryIsFile]

theorem countFilesTop_other_cons (p : String) (rest : List Entry) :
    countFilesTop (.other p :: rest) = countFilesTop rest := by
  simp [countFilesTop, entryIsFile]

theorem countDirsTop_file_cons (p : String) (sz : Nat) (mt : Int) (rest : List Entry) :
    countDirsTop (.file p sz mt :: rest) = countDirsTop rest := by
  simp [countDirsTop, entryIsDir]

theorem countDirsTop_dir_cons (p : String) (sub rest : List Entry) :
    countDirsTop (.dir p sub :: rest) = 1 + countDirsTop rest := by
  simp [countDirsTop, entryIsDir]
  omega

theorem countDirsTop_other_cons (p : String) (rest : List Entry) :
    countDirsTop (.other p :: rest) = countDirsTop rest := by
  simp [countDirsTop, entryIsDir]

/-- Characterization of the shallow-scan child loop: it appends one record
per file or directory entry (all at depth 1), and its running totals grow
by the sum of the appended records' sizes and the immediate file/directory
counts. -/
theorem shallowLoop_char (sp rid : String) (now : Int) (l : List Entry) :
    ∀ (items : List ItemRecord) (ts tf td lat : Int),
    ∃ (newItems : List ItemRecord) (latFinal : Int),
      shallowLoop sp rid now l items ts tf td lat
        = (items ++ newItems, ts + (newItems.map (fun r => r.sizeBytes)).sum,
           tf + countFilesTop l, td + countDirsTop l, latFinal) ∧
      ∀ r ∈ newItems, r.depth = 1 := by
  induction l with
  | nil =>
    intro items ts tf td lat
    refine ⟨[], lat, ?_, by intro r hr; cases hr⟩
    simp [shallowLoop, countFilesTop, countDirsTop]
  | cons e rest ih =>
    intro items ts tf td lat
    match e with
    | .file p sz mt =>
      obtain ⟨ni, lf, heq, hdep⟩ := ih
        (items ++ [(
          { path := p, parent := sp, type := "File", sizeBytes := (sz : Int),
            fileCount := 1, folderCount := 0, lastWriteUtc := toIsoString mt,
            scannedUtc := "", depth := 1, runId := rid } : ItemRecord)])
        (ts + (sz : Int)) (tf + 1) td (max lat mt)
      refine ⟨(
          { path := p, parent := sp, type := "File", sizeBytes := (sz : Int),
            fileCount := 1, folderCount := 0, lastWriteUtc := toIsoString mt,
            scannedUtc := "", depth := 1, runId := rid } : ItemRecord) :: ni, lf, ?_, ?_⟩
      · show shallowLoop sp rid now rest _ _ _ _ _ = _
        rw [heq, countFilesTop_file_cons, countDirsTop_file_cons]
        simp [List.append_assoc, add_assoc, add_comm, add_left_comm]
      · intro r hr
        rcases List.mem_cons.1 hr with h | h
        · rw [h]
        · exact hdep r h
    | .dir p sub =>
      obtain ⟨ni, lf, heq, hdep⟩ := ih
        (items ++ [(
          { path := p, parent := sp, type := "Folder",
            sizeBytes := (statDirShallow sub).sizeBytes,
            fileCount := (statDirShallow sub).fileCount,
            folderCount := (statDirShallow sub).folderCount,
            lastWriteUtc := toIsoString (if 0 < (statDirShallow sub).latestMs
              then (statDirShallow sub).latestMs else now),
            scannedUtc := "", depth := 1, runId := rid } : ItemRecord)])
        (ts + (statDirShallow sub).sizeBytes) tf (td + 1)
        (max lat (statDirShallow sub).latestMs)
      refine ⟨(
          { path := p, parent := sp, type := "Folder",
            sizeBytes := (statDirShallow sub).sizeBytes,
            fileCount := (statDirShallow sub).fileCount,
            folderCount := (statDirShallow sub).folderCount,
            lastWriteUtc := toIsoString (if 0 < (statDirShallow sub).latestMs
              then (statDirShallow sub).latestMs else now),
            scannedUtc := "", depth := 1, runId := rid } : ItemRecord) :: ni, lf, ?_, ?_⟩
      · show shallowLoop sp rid now rest _ _ _ _ _ = _
        rw [heq, countFilesTop_dir_cons, countDirsTop_dir_cons]
        simp [List.append_assoc, add_assoc, add_comm, add_left_comm]
      · intro r hr
        rcases List.mem_cons.1 hr with h | h
        · rw [h]
        · exact hdep r h
    | .other p =>
      obtain ⟨ni, lf, heq, hdep⟩ := ih items ts tf td lat
      refine ⟨ni, lf, ?_, hdep⟩
      show shallowLoop sp rid now rest _ _ _ _ _ = _
      rw [heq, countFilesTop_other_cons, countDirsTop_other_cons]

/-- C6 counterexample: a shallow scan of `/a` containing one subdirectory
that itself holds one file.  The emitted child Folder record has
`fileCount = 1`, but the depth-0 record for `/a` has `fileCount = 0` and
`folderCount = 1` — the root's `fileCount`/`folderCount` are not the sums
of the children's corresponding aggregates (which would be 1 and 0). -/
theorem claim6_counterexample :
    scanShallow "/a" "r" 0 99 [.dir "/a/d" [.file "/a/d/f" 10 5]]
      = [{ path := "/a/d", parent := "/a", type := "Folder", sizeBytes := 10, fileCount := 1,
           folderCount := 0, lastWriteUtc := toIsoString 5, scannedUtc := "", depth := 1,
           runId := "r" },
         { path := "/a", parent := "/", type := "Folder", sizeBytes := 10, fileCount := 0,
           folderCount := 1, lastWriteUtc := toIsoString 5, scannedUtc := "", depth := 0,
           runId := "r" }] ∧
    ¬((0 : Int) = 1 ∧ (1 : Int) = 0) := by
  exact ⟨by decide, by decide⟩

/-- C6 (amended): a shallow scan always emits exactly one record for
`startPath` itself, at depth 0 after the depth-1 children, whose parent is
the filesystem parent of `startPath` (empty for a filesystem root); its
`sizeBytes` is the sum of the emitted children's `sizeBytes`, while its
`fileCount` and `folderCount` are the numbers of immediate file and
directory entries of `startPath` (not sums of the children's counts). -/
theorem claim6_shallow_root (sp rid : String) (rootMtime now : Int) (l : List Entry) :
    ∃ (children : List ItemRecord) (root : ItemRecord),
      scanShallow sp rid rootMtime now l = children ++ [root] ∧
      root.path = sp ∧ root.depth = 0 ∧ root.parent = getParent sp ∧
      root.type = "Folder" ∧
      root.sizeBytes = (children.map (fun r => r.sizeBytes)).sum ∧
      root.fileCount = countFilesTop l ∧
      root.folderCount = countDirsTop l ∧
      ∀ r ∈ children, r.depth = 1 := by
  obtain ⟨ni, lf, heq, hdep⟩ := shallowLoop_char sp rid now l [] 0 0 0 0
  simp only [scanShallow]
  rw [heq]
  refine ⟨ni, _, rfl, rfl, rfl, rfl, rfl, ?_, ?_, ?_, hdep⟩
  · show (0 : Int) + (ni.map (fun r => r.sizeBytes)).sum = (ni.map (fun r => r.sizeBytes)).sum
    simp
  · show (0 : Int) + countFilesTop l = countFilesTop l
    simp
  · show (0 : Int) + countDirsTop l = countDirsTop l
    simp

end LFB
